import Mathlib

/-!
Shallow embedding of the praxis local-provider convergence core:
the manifest model (services, balancers, resources), environment
resolution, the resource provisioning catalog, container-spec
synthesis, and the label-based reconcile/prune logic of
provider/local/converge.go, together with theorems checking the
specification's claims against these definitions.
-/

set_option maxRecDepth 4000

deriving instance DecidableEq for Except

/-- Association-list model of a Go string→string map: insertion
overwrites an existing binding in place, otherwise appends. -/
abbrev EMap := List (String × String)

def mapInsert : EMap → String → String → EMap
  | [], k, v => [(k, v)]
  | p :: rest, k, v => if p.1 == k then (k, v) :: rest else p :: mapInsert rest k v

def mapGet : EMap → String → Option String
  | [], _ => none
  | p :: rest, k => if p.1 == k then some p.2 else mapGet rest k

/-- Split a character list at the first occurrence of the separator
character, returning the parts before and after it when present. -/
def breakEq : List Char → Option (List Char × List Char)
  | [] => none
  | c :: cs =>
    if c = '=' then some ([], cs)
    else (breakEq cs).map (fun p => (c :: p.1, p.2))

/-- Go strings.SplitN(s, sep, 2) for the single-character separator
used by the manifest code: one part when the separator is absent,
otherwise the parts before and after its first occurrence. -/
def splitN2 (s : String) : List String :=
  match breakEq s.data with
  | none => [s]
  | some (a, b) => [String.mk a, String.mk b]

/-- parseEnv from the manifest package: entries of the form KEY=value
populate the map (later entries overwrite), all others are dropped. -/
def parseEnv (env : List String) : EMap :=
  env.foldl (fun parsed e =>
    match splitN2 e with
    | [k, v] => mapInsert parsed k v
    | _ => parsed) []

structure ServiceBuild where
  Args : List String := []
  Path : String := ""
deriving DecidableEq

structure ServicePort where
  Port : Nat := 0
  Scheme : String := ""
deriving DecidableEq

structure ServiceCommand where
  Development : String := ""
  Test : String := ""
  Production : String := ""
deriving DecidableEq

structure ScaleCount where
  Min : Nat := 0
deriving DecidableEq

structure ServiceScale where
  Count : ScaleCount := {}
  Memory : Nat := 0
deriving DecidableEq

/-- manifest.Service: the declared-environment/build/image fields come
from the manifest package source; the Port/Command/Scale/Resources
fields are the ones the converge code reads on the same type. -/
structure Service where
  Name : String := ""
  Build : ServiceBuild := {}
  Command : ServiceCommand := {}
  Environment : List String := []
  Image : String := ""
  Port : ServicePort := {}
  Resources : List String := []
  Scale : ServiceScale := {}
  Test : String := ""
  Volumes : List String := []
deriving DecidableEq

structure Endpoint where
  Port : String := ""
  Protocol : String := ""
  Redirect : String := ""
  Target : String := ""
deriving DecidableEq

structure Balancer where
  Name : String := ""
  Endpoints : List Endpoint := []
deriving DecidableEq

/-- manifest.Resource; the Go field named Type is rendered Type'
because Type is a Lean keyword. -/
structure Resource where
  Name : String := ""
  Type' : String := ""
deriving DecidableEq

structure Manifest where
  Balancers : List Balancer := []
  Resources : List Resource := []
  Services : List Service := []
deriving DecidableEq

/-- The loop body of Service.Env: walk the declared entries, resolving
each against the pre-parsed ambient environment penv; a declared entry
without '=' is required (error when absent from penv), an entry
KEY=default takes the ambient value when present and the default
otherwise. -/
def envMerge (penv : EMap) : List String → EMap → Except String EMap
  | [], full => .ok full
  | e :: rest, full =>
    match splitN2 e with
    | [k] =>
      match mapGet penv k with
      | some v => envMerge penv rest (mapInsert full k v)
      | none => .error ("required env: " ++ k)
    | [k, d] =>
      match mapGet penv k with
      | some v => envMerge penv rest (mapInsert full k v)
      | none => envMerge penv rest (mapInsert full k d)
    | _ => .error "invalid environment"

def Service.Env (s : Service) (env : List String) : Except String EMap :=
  envMerge (parseEnv env) s.Environment []

def Services.Find (ss : List Service) (name : String) : Except String Service :=
  match ss.find? (fun s => s.Name == name) with
  | some s => .ok s
  | none => .error ("could not find service: " ++ name)

/-- Decimal digit character: 0 ↦ 0x30, …, 9 ↦ 0x39. -/
def digitChar (n : Nat) : Char := Char.ofNat (48 + n)

/-- Decimal rendering worker; the first argument is structural fuel
bounding the number of digits, so that the definition reduces inside
the kernel. -/
def decimalAux : Nat → Nat → List Char
  | 0, _ => []
  | fuel + 1, n =>
    if n < 10 then [digitChar n] else decimalAux fuel (n / 10) ++ [digitChar (n % 10)]

/-- Decimal rendering of a natural number as a character list, the
output of Go fmt %d and strconv.Itoa; n + 1 units of fuel always
suffice. -/
def decimalCore (n : Nat) : List Char := decimalAux (n + 1) n

def decimal (n : Nat) : String := String.mk (decimalCore n)

/-- Lower-case hexadecimal digit character. -/
def hexDigit (n : Nat) : Char :=
  if n < 10 then digitChar n else Char.ofNat (87 + n)

/-- Eight-digit lower-case hexadecimal rendering of a 32-bit word. -/
def hex8 (n : Nat) : List Char :=
  (List.range 8).map (fun i => hexDigit (n / 2 ^ (4 * (7 - i)) % 16))

def w32 (n : Nat) : Nat := n % 4294967296

/-- Rotate a 32-bit word left by k bits. -/
def rotl (k n : Nat) : Nat := w32 (n * 2 ^ k) + n / 2 ^ (32 - k)

def compl32 (n : Nat) : Nat := 4294967295 - n

/-- SHA-1 round function for round t. -/
def sha1F (t b c d : Nat) : Nat :=
  if t < 20 then Nat.lor (Nat.land b c) (Nat.land (compl32 b) d)
  else if t < 40 then Nat.xor (Nat.xor b c) d
  else if t < 60 then Nat.lor (Nat.lor (Nat.land b c) (Nat.land b d)) (Nat.land c d)
  else Nat.xor (Nat.xor b c) d

/-- SHA-1 round constant for round t. -/
def sha1K (t : Nat) : Nat :=
  if t < 20 then 1518500249
  else if t < 40 then 1859775393
  else if t < 60 then 2400959708
  else 3395469782

/-- Big-endian 32-bit words from a list of bytes. -/
def beWords : List Nat → List Nat
  | b0 :: b1 :: b2 :: b3 :: rest => (((b0 * 256 + b1) * 256 + b2) * 256 + b3) :: beWords rest
  | _ => []

/-- Extend the 16-word message schedule to 80 words. -/
def extendW (w : List Nat) : List Nat :=
  if h : 80 ≤ w.length then w
  else
    extendW (w ++ [rotl 1 (Nat.xor (Nat.xor (w.getD (w.length - 3) 0) (w.getD (w.length - 8) 0))
      (Nat.xor (w.getD (w.length - 14) 0) (w.getD (w.length - 16) 0)))])
termination_by 80 - w.length
decreasing_by simp [List.length_append]; omega

def sha1Round (st : Nat × Nat × Nat × Nat × Nat) (tw : Nat × Nat) : Nat × Nat × Nat × Nat × Nat :=
  match st, tw with
  | (a, b, c, d, e), (t, wt) =>
    (w32 (rotl 5 a + sha1F t b c d + e + wt + sha1K t), a, rotl 30 b, c, d)

def sha1Chunk (hs : Nat × Nat × Nat × Nat × Nat) (chunk : List Nat) : Nat × Nat × Nat × Nat × Nat :=
  match hs with
  | (h0, h1, h2, h3, h4) =>
    match (extendW (beWords chunk)).enum.foldl sha1Round (h0, h1, h2, h3, h4) with
    | (a, b, c, d, e) => (w32 (h0 + a), w32 (h1 + b), w32 (h2 + c), w32 (h3 + d), w32 (h4 + e))

def chunks64 (l : List Nat) : List (List Nat) :=
  if h : l = [] then []
  else l.take 64 :: chunks64 (l.drop 64)
termination_by l.length
decreasing_by
  have hl : 0 < l.length := List.length_pos.mpr h
  simp [List.length_drop]
  omega

/-- Big-endian 8-byte rendering of a length in bits. -/
def be64 (n : Nat) : List Nat :=
  [n / 2 ^ 56 % 256, n / 2 ^ 48 % 256, n / 2 ^ 40 % 256, n / 2 ^ 32 % 256,
   n / 2 ^ 24 % 256, n / 2 ^ 16 % 256, n / 2 ^ 8 % 256, n % 256]

/-- SHA-1 padding: a 0x80 byte, zeros to 56 mod 64, then the bit length. -/
def sha1Pad (msg : List Nat) : List Nat :=
  msg ++ [128] ++ List.replicate ((119 - msg.length % 64) % 64) 0 ++ be64 (msg.length * 8)

/-- The five 32-bit words of the SHA-1 digest of a byte sequence. -/
def sha1Words (msg : List Nat) : List Nat :=
  match (chunks64 (sha1Pad msg)).foldl sha1Chunk
      (1732584193, 4023233417, 2562383102, 271733878, 3285377520) with
  | (a, b, c, d, e) => [a, b, c, d, e]

/-- Go fmt %x of a SHA-1 sum: forty lower-case hexadecimal digits. -/
def sha1Hex (msg : List Nat) : String :=
  String.mk ((sha1Words msg).flatMap hex8)

/-- UTF-8 bytes of one character. -/
def utf8Bytes (c : Char) : List Nat :=
  let n := c.toNat
  if n < 128 then [n]
  else if n < 2048 then [192 + n / 64, 128 + n % 64]
  else if n < 65536 then [224 + n / 4096, 128 + n / 64 % 64, 128 + n % 64]
  else [240 + n / 262144, 128 + n / 4096 % 64, 128 + n / 64 % 64, 128 + n % 64]

def strBytes (s : String) : List Nat := s.data.flatMap utf8Bytes

/-- Escaping of one character inside a Go %q double-quoted literal:
backslash and quote are backslash-escaped, the usual control escapes
apply, other printable characters stand for themselves, and remaining
single-byte characters use a hexadecimal escape. -/
def goEscapeChar (c : Char) : List Char :=
  if c = '\\' then ['\\', '\\']
  else if c = '"' then ['\\', '"']
  else if c = Char.ofNat 7 then ['\\', 'a']
  else if c = Char.ofNat 8 then ['\\', 'b']
  else if c = Char.ofNat 12 then ['\\', 'f']
  else if c = Char.ofNat 10 then ['\\', 'n']
  else if c = Char.ofNat 13 then ['\\', 'r']
  else if c = Char.ofNat 9 then ['\\', 't']
  else if c = Char.ofNat 11 then ['\\', 'v']
  else if 32 ≤ c.toNat ∧ c.toNat < 127 then [c]
  else if c.toNat < 256 then ['\\', 'x', hexDigit (c.toNat / 16), hexDigit (c.toNat % 16)]
  else [c]

/-- Go fmt %q of a string. -/
def goQuote (s : String) : String :=
  String.mk ('"' :: s.data.flatMap goEscapeChar ++ ['"'])

/-- Go fmt %v of a []string: the elements joined by single spaces,
inside square brackets, with no quoting or other delimiters. -/
def goFmtStringSlice (xs : List String) : String :=
  "[" ++ String.intercalate " " xs ++ "]"

/-- The formatted build-identity string hashed by Service.BuildHash. -/
def buildIdentity (s : Service) : String :=
  "build[path=" ++ goQuote s.Build.Path ++ ", args=" ++ goFmtStringSlice s.Build.Args ++
    "] image=" ++ goQuote s.Image

/-- Service.BuildHash: the hex SHA-1 of the formatted build identity. -/
def Service.BuildHash (s : Service) : String :=
  sha1Hex (strBytes (buildIdentity s))

/-- resourcePort from converge.go. -/
def resourcePort (kind : String) : Except String Nat :=
  match kind with
  | "postgres" => .ok 5432
  | "redis" => .ok 6379
  | _ => .error ("unknown resource type: " ++ kind)

/-- resourceURL from converge.go; note the fixed trailing domain
component "convox" in the host name. -/
def resourceURL (app kind name : String) : Except String String :=
  match kind with
  | "postgres" =>
    .ok ("postgres://postgres:password@" ++ name ++ ".resource." ++ app ++
      ".convox:5432/app?sslmode=disable")
  | "redis" => .ok ("redis://" ++ name ++ ".resource." ++ app ++ ".convox:6379/0")
  | _ => .error ("unknown resource type: " ++ kind)

/-- resourceVolumes from converge.go. -/
def resourceVolumes (app kind name : String) : Except String (List String) :=
  match kind with
  | "postgres" => .ok ["/var/convox/" ++ app ++ "/resource/" ++ name ++ ":/var/lib/postgresql/data"]
  | "redis" => .ok []
  | _ => .error ("unknown resource type: " ++ kind)

/-- Deployment stage; the spec fixes exactly three variants
(development, test, production) for the stage constants the converge
code compares against. -/
inductive Stage
  | development
  | test
  | production
deriving DecidableEq

/-- Modelled from the spec: a release — identifier, build reference,
stage (§3); the Release type is outside the provided sources. -/
structure Release where
  Id : String := ""
  Build : String := ""
  Stage : Stage := Stage.development
deriving DecidableEq

/-- Modelled from the spec: the local provider's host identity (rack
name, version) together with the system image its SystemGet returns;
the Provider struct is outside the provided sources. -/
structure Provider where
  Name : String := ""
  Version : String := ""
  SystemImage : String := ""
deriving DecidableEq

structure containerPort where
  Host : Nat := 0
  Container : Nat := 0
deriving DecidableEq

/-- Modelled from the spec: ContainerSpec (§3); the container struct
declaration is outside the provided sources, its fields are exactly
the ones converge.go populates. -/
structure container where
  Id : String := ""
  Name : String := ""
  Hostname : String := ""
  Port : containerPort := {}
  Memory : Nat := 0
  Image : String := ""
  Command : List String := []
  Env : EMap := []
  Volumes : List String := []
  Labels : EMap := []
deriving DecidableEq

/-- The deterministic name scheme shared by the four Sprintf patterns
of converge.go: rack.app.kind.name with an optional replica index. -/
def containerName (rack app kind name : String) (idx : Option String) : String :=
  match idx with
  | none => rack ++ "." ++ app ++ "." ++ kind ++ "." ++ name
  | some i => rack ++ "." ++ app ++ "." ++ kind ++ "." ++ name ++ "." ++ i

def endpointCommand (b : Balancer) (e : Endpoint) : Except String (List String) :=
  if e.Redirect ≠ "" then .ok ["balancer", e.Protocol, "redirect", e.Redirect]
  else if e.Target ≠ "" then .ok ["balancer", e.Protocol, "target", e.Target]
  else .error ("invalid balancer endpoint: " ++ b.Name ++ ":" ++ e.Port)

def balancerContainer (p : Provider) (app release : String) (b : Balancer) (e : Endpoint)
    (command : List String) : container :=
  { Name := p.Name ++ "." ++ app ++ "." ++ "balancer" ++ "." ++ b.Name
    Hostname := b.Name ++ ".balancer." ++ app ++ "." ++ p.Name
    Port := { Host := 443, Container := 3000 }
    Memory := 64
    Image := p.SystemImage
    Command := command
    Labels := [("convox.rack", p.Name), ("convox.version", p.Version), ("convox.app", app),
      ("convox.release", release), ("convox.type", "balancer"), ("convox.name", b.Name),
      ("convox.port", e.Port)] }

/-- balancerContainers from converge.go: one container per endpoint of
each balancer, none at all in the test stage. -/
def balancerContainers (p : Provider) (balancers : List Balancer) (app release : String)
    (stage : Stage) : Except String (List container) :=
  if stage = Stage.test then .ok []
  else do
    let css ← balancers.mapM (fun b => b.Endpoints.mapM (fun e => do
      let command ← endpointCommand b e
      pure (balancerContainer p app release b e command)))
    pure css.flatten

def resourceContainer (p : Provider) (app release : String) (r : Resource) (rp : Nat)
    (vs : List String) : container :=
  { Name := p.Name ++ "." ++ app ++ "." ++ "resource" ++ "." ++ r.Name
    Hostname := r.Name ++ ".resource." ++ app ++ "." ++ p.Name
    Port := { Host := rp, Container := rp }
    Image := "convox/" ++ r.Type'
    Volumes := vs
    Labels := [("convox.rack", p.Name), ("convox.version", p.Version), ("convox.app", app),
      ("convox.release", release), ("convox.type", "resource"), ("convox.name", r.Name),
      ("convox.resource", r.Type')] }

/-- resourceContainers from converge.go: one container per declared
resource, with port and volumes from the provisioning catalog. -/
def resourceContainers (p : Provider) (resources : List Resource) (app release : String) :
    Except String (List container) :=
  resources.mapM (fun r => do
    let rp ← resourcePort r.Type'
    let vs ← resourceVolumes app r.Type' r.Name
    pure (resourceContainer p app release r rp vs))

def endpointContainer (p : Provider) (app release : String) (s : Service) : container :=
  { Name := p.Name ++ "." ++ app ++ "." ++ "endpoint" ++ "." ++ s.Name
    Hostname := s.Name ++ "." ++ app ++ "." ++ p.Name
    Port := { Host := 443, Container := 3000 }
    Memory := 64
    Image := p.SystemImage
    Command := ["balancer", "https", "target",
      s.Port.Scheme ++ "://" ++ s.Name ++ ":" ++ decimal s.Port.Port]
    Labels := [("convox.rack", p.Name), ("convox.version", p.Version), ("convox.app", app),
      ("convox.release", release), ("convox.type", "endpoint"), ("convox.name", s.Name),
      ("convox.port", decimal s.Port.Port)] }

def serviceReplica (p : Provider) (app release buildId : String) (s : Service)
    (cmd : List String) (e : EMap) (i : Nat) : container :=
  { Name := p.Name ++ "." ++ app ++ "." ++ "service" ++ "." ++ s.Name ++ "." ++ decimal i
    Image := p.Name ++ "/" ++ app ++ "/" ++ s.Name ++ ":" ++ buildId
    Command := cmd
    Env := e
    Memory := s.Scale.Memory
    Volumes := s.Volumes
    Labels := [("convox.rack", p.Name), ("convox.version", p.Version), ("convox.app", app),
      ("convox.release", release), ("convox.type", "service"), ("convox.name", s.Name),
      ("convox.service", s.Name), ("convox.index", decimal i)] }

/-- Modelled from the spec: Manifest.ServiceEnvironment (outside the
provided sources) resolves the named service's declared environment
against the ambient environment (§4.2) by finding the service and
applying Service.Env. -/
def Manifest.ServiceEnvironment (m : Manifest) (name : String) (ambient : List String) :
    Except String EMap := do
  let s ← Services.Find m.Services name
  s.Env ambient

/-- Whitespace predicate of Go strings.TrimSpace (unicode.IsSpace) on
the character values that occur in manifests: ASCII whitespace plus
NEL and NBSP. -/
def isSpaceChar (c : Char) : Bool :=
  c = ' ' || c = Char.ofNat 9 || c = Char.ofNat 10 || c = Char.ofNat 11 ||
    c = Char.ofNat 12 || c = Char.ofNat 13 || c = Char.ofNat 133 || c = Char.ofNat 160

/-- Go strings.TrimSpace: drop leading and trailing whitespace. -/
def goTrim (s : String) : String :=
  String.mk (((s.data.dropWhile isSpaceChar).reverse.dropWhile isSpaceChar).reverse)

def upperChar (c : Char) : Char :=
  if 'a' ≤ c ∧ c ≤ 'z' then Char.ofNat (c.toNat - 32) else c

/-- Go strings.ToUpper on the ASCII names used for resources. -/
def goToUpper (s : String) : String := String.mk (s.data.map upperChar)

/-- One step of the resource-URL injection loop of serviceContainers:
when the manifest resource carries the consumed name, add
UPPER(name)_URL mapped to the catalog URL. -/
def injectResource1 (app sr : String) (e : EMap) (r : Resource) : Except String EMap :=
  if r.Name == sr then do
    let u ← resourceURL app r.Type' r.Name
    pure (mapInsert e (goToUpper sr ++ "_URL") u)
  else pure e

/-- The resource-URL injection loops of serviceContainers: for each
resource name the service consumes, for each manifest resource with
that name, inject the URL entry.  The Go code first copies the
resolved environment map; starting the fold from env models that
copy. -/
def injectResources (app : String) (resources : List Resource) (srs : List String)
    (env : EMap) : Except String EMap :=
  srs.foldlM (fun e sr => resources.foldlM (injectResource1 app sr) e) env

/-- The stage switch of serviceContainers selecting the background
command; its test arm reports that background services cannot run in
test. -/
def stageCommand (stage : Stage) (s : Service) : Except String String :=
  match stage with
  | Stage.development => .ok s.Command.Development
  | Stage.test => .error "can not run background services in test"
  | Stage.production => .ok s.Command.Production

/-- serviceContainers from converge.go: nothing in the test stage;
otherwise, per service, an endpoint container when a port is declared
followed by Scale.Count.Min numbered replicas sharing one command and
environment. -/
def serviceContainers (p : Provider) (m : Manifest) (services : List Service)
    (app release : String) (stage : Stage) (ambient : List String) (buildId : String) :
    Except String (List container) :=
  if stage = Stage.test then .ok []
  else do
    let css ← services.mapM (fun s => do
      let epcs := if 0 < s.Port.Port then [endpointContainer p app release s] else []
      let command ← stageCommand stage s
      let cmd := if goTrim command ≠ "" then ["sh", "-c", goTrim command] else []
      let env ← m.ServiceEnvironment s.Name ambient
      let e ← injectResources app m.Resources s.Resources env
      pure (epcs ++ (List.range s.Scale.Count.Min).map
        (fun i => serviceReplica p app release buildId s cmd e (i + 1))))
    pure css.flatten

/-- The desired-set synthesis of converge: balancer, resource and
service containers concatenated in that order. -/
def desiredContainers (p : Provider) (m : Manifest) (app : String) (r : Release)
    (ambient : List String) : Except String (List container) := do
  let bcs ← balancerContainers p m.Balancers app r.Id r.Stage
  let rcs ← resourceContainers p m.Resources app r.Id
  let scs ← serviceContainers p m m.Services app r.Id r.Stage ambient r.Build
  pure (bcs ++ rcs ++ scs)

/-- Modelled from the spec: one container known to the runtime
adapter — an opaque identifier plus its labels (§6). -/
structure RunningContainer where
  id : String := ""
  labels : EMap := []
deriving DecidableEq

/-- Modelled from the spec: containersByLabels returns the identifiers
of all containers whose labels are a superset of the given map (§6). -/
def containersByLabels (sel : EMap) (docker : List RunningContainer) : List String :=
  (docker.filter (fun c =>
    sel.all (fun kv => c.labels.any (fun p => p.1 == kv.1 && p.2 == kv.2)))).map
    (fun c => c.id)

/-- The stop phase of converge: query the running containers of the
app and the one-off process containers by label, then stop every
running container whose identifier was neither recorded in the
converged desired list nor returned by the process query. -/
def convergeStops (p : Provider) (app : String) (cs : List container)
    (docker : List RunningContainer) : List String :=
  let running := containersByLabels [("convox.rack", p.Name), ("convox.app", app)] docker
  let ps := containersByLabels
    [("convox.rack", p.Name), ("convox.app", app), ("convox.type", "process")] docker
  running.filter (fun rc => !(cs.any (fun c => c.Id == rc) || ps.any (fun pc => rc == pc)))

/-- convergePrune: union the labeled container sets of all listed
applications, then stop every container carrying this rack's label
that is not in that union. -/
def convergePruneStops (p : Provider) (apps : List String)
    (docker : List RunningContainer) : List String :=
  let all := containersByLabels [("convox.rack", p.Name)] docker
  let appc := apps.flatMap
    (fun a => containersByLabels [("convox.rack", p.Name), ("convox.app", a)] docker)
  all.filter (fun c => !appc.contains c)

/-- The character-list skeleton shared by all synthesized container
names: rack.app.kind.rest. -/
def nameChars (rack app : String) (kind rest : List Char) : List Char :=
  rack.data ++ '.' :: (app.data ++ '.' :: (kind ++ '.' :: rest))

/-- The numeric value of a list of decimal digit characters. -/
def digitsVal (l : List Char) : Nat := l.foldl (fun a c => a * 10 + (c.toNat - 48)) 0

/-- The name of a synthesized balancer container. -/
def bName (rack app x : String) : String :=
  rack ++ "." ++ app ++ "." ++ "balancer" ++ "." ++ x

/-- The name of a synthesized resource container. -/
def rName (rack app x : String) : String :=
  rack ++ "." ++ app ++ "." ++ "resource" ++ "." ++ x

/-- The name of a synthesized endpoint container. -/
def eName (rack app x : String) : String :=
  rack ++ "." ++ app ++ "." ++ "endpoint" ++ "." ++ x

/-- The name of a synthesized service replica container. -/
def sName (rack app x : String) (i : Nat) : String :=
  rack ++ "." ++ app ++ "." ++ "service" ++ "." ++ x ++ "." ++ decimal i

/-- The key of a declared environment entry: the part before the
first '=', or the entry itself when it has none. -/
def entryKey (e : String) : String := (splitN2 e).headD ""

/-- The key-value connection URL template in the specification\'s own
words: scheme://name.resource.app.rack:port/db-index instantiated with
the rack name; written from the spec to compare with resourceURL. -/
def specKeyValueURL (scheme name app rack : String) (port : Nat) (db : String) : String :=
  scheme ++ "://" ++ name ++ ".resource." ++ app ++ "." ++ rack ++ ":" ++ decimal port ++
    "/" ++ db

/-- The names of the containers a single balancer synthesizes: one
per endpoint, all sharing the balancer's name. -/
def balNames (rack app : String) (b : Balancer) : List String :=
  b.Endpoints.map (fun _ => bName rack app b.Name)

/-- The names of the containers a single service synthesizes: an
endpoint container when a public port is declared, then one replica
per index. -/
def svcNames (rack app : String) (s : Service) : List String :=
  (if 0 < s.Port.Port then [eName rack app s.Name] else []) ++
    (List.range s.Scale.Count.Min).map (fun i => sName rack app s.Name (i + 1))

/-- Label lookup on a container, with the empty string for a missing
key, mirroring indexing a Go string map. -/
def labelGet (c : container) (k : String) : String := (mapGet c.Labels k).getD ""

theorem exceptOkBind {α β : Type} (a : α) (f : α → Except String β) :
    (Except.ok a >>= f) = f a := rfl

theorem exceptErrorBind {α β : Type} (msg : String) (f : α → Except String β) :
    ((Except.error msg : Except String α) >>= f) = Except.error msg := rfl

theorem exceptPureEq {α : Type} (a : α) : (pure a : Except String α) = Except.ok a := rfl

theorem mapM_ok_map {α β γ : Type} {f : α → Except String β} {g : β → γ} {h : α → γ}
    (hfg : ∀ a b, f a = .ok b → g b = h a) :
    ∀ {l : List α} {ys : List β}, l.mapM f = .ok ys → ys.map g = l.map h := by
  intro l
  induction l with
  | nil =>
    intro ys hy
    have : (Except.ok [] : Except String (List β)) = .ok ys := hy
    cases this
    rfl
  | cons a l ih =>
    intro ys hy
    rw [List.mapM_cons] at hy
    cases hfa : f a with
    | error msg => rw [hfa, exceptErrorBind] at hy; cases hy
    | ok b =>
      rw [hfa, exceptOkBind] at hy
      cases hml : l.mapM f with
      | error msg => rw [hml, exceptErrorBind] at hy; cases hy
      | ok bs =>
        rw [hml, exceptOkBind, exceptPureEq] at hy
        cases hy
        simp only [List.map_cons]
        rw [hfg a b hfa, ih hml]

theorem mapM_ok_forall {α β : Type} {f : α → Except String β} {P : β → Prop}
    (hf : ∀ a b, f a = .ok b → P b) :
    ∀ {l : List α} {ys : List β}, l.mapM f = .ok ys → ∀ y ∈ ys, P y := by
  intro l
  induction l with
  | nil =>
    intro ys hy
    have : (Except.ok [] : Except String (List β)) = .ok ys := hy
    cases this
    intro y hmem
    cases hmem
  | cons a l ih =>
    intro ys hy
    rw [List.mapM_cons] at hy
    cases hfa : f a with
    | error msg => rw [hfa, exceptErrorBind] at hy; cases hy
    | ok b =>
      rw [hfa, exceptOkBind] at hy
      cases hml : l.mapM f with
      | error msg => rw [hml, exceptErrorBind] at hy; cases hy
      | ok bs =>
        rw [hml, exceptOkBind, exceptPureEq] at hy
        cases hy
        intro y hmem
        cases hmem with
        | head => exact hf a b hfa
        | tail _ hmem => exact ih hml y hmem

theorem decimalAux_fuel :
    ∀ (n f1 f2 : Nat), n < f1 → n < f2 → decimalAux f1 n = decimalAux f2 n := by
  intro n
  induction n using Nat.strong_induction_on with
  | _ n ih =>
    intro f1 f2 h1 h2
    cases f1 with
    | zero => omega
    | succ g1 =>
      cases f2 with
      | zero => omega
      | succ g2 =>
        simp only [decimalAux]
        by_cases h10 : n < 10
        · simp [h10]
        · have hd : n / 10 < n := Nat.div_lt_self (by omega) (by omega)
          simp only [if_neg h10]
          rw [ih (n / 10) hd g1 g2 (by omega) (by omega)]

theorem decimalCore_eq (n : Nat) :
    decimalCore n =
      if n < 10 then [digitChar n] else decimalCore (n / 10) ++ [digitChar (n % 10)] := by
  by_cases h10 : n < 10
  · rw [if_pos h10]
    simp [decimalCore, decimalAux, h10]
  · rw [if_neg h10]
    have h1 : decimalCore n = decimalAux n (n / 10) ++ [digitChar (n % 10)] := by
      rw [decimalCore]
      simp [decimalAux, h10]
    rw [h1, decimalCore]
    congr 1
    exact decimalAux_fuel (n / 10) n (n / 10 + 1)
      (by have hd : n / 10 < n := Nat.div_lt_self (by omega) (by omega); omega)
      (by omega)

theorem mapGet_mapInsert_self (m : EMap) (k v : String) :
    mapGet (mapInsert m k v) k = some v := by
  induction m with
  | nil => simp [mapInsert, mapGet]
  | cons p rest ih =>
    by_cases h : p.1 = k
    · simp [mapInsert, mapGet, h]
    · simp [mapInsert, mapGet, h, ih]

theorem mapGet_mapInsert_ne (m : EMap) (k k2 v : String) (h : k2 ≠ k) :
    mapGet (mapInsert m k v) k2 = mapGet m k2 := by
  have h2 : k ≠ k2 := Ne.symm h
  induction m with
  | nil => simp [mapInsert, mapGet, h2]
  | cons p rest ih =>
    by_cases hp : p.1 = k
    · simp [mapInsert, mapGet, hp, h2]
    · simp [mapInsert, mapGet, hp, ih]

theorem breakEq_eq_none {cs : List Char} : breakEq cs = none ↔ '=' ∉ cs := by
  induction cs with
  | nil => simp [breakEq]
  | cons c cs ih =>
    by_cases h : c = '='
    · simp [breakEq, h]
    · simp [breakEq, h, Option.map_eq_none', ih, Ne.symm h]

theorem splitN2_shape (e : String) : splitN2 e = [e] ∨ ∃ k d, splitN2 e = [k, d] := by
  unfold splitN2
  cases h : breakEq e.data with
  | none => left; rfl
  | some p => right; exact ⟨String.mk p.1, String.mk p.2, rfl⟩

theorem splitN2_no_eq {e : String} (he : '=' ∉ e.data) : splitN2 e = [e] := by
  unfold splitN2
  rw [breakEq_eq_none.mpr he]

theorem parseEnv_skip (l1 l2 : List String) (e : String) (he : '=' ∉ e.data) :
    parseEnv (l1 ++ e :: l2) = parseEnv (l1 ++ l2) := by
  unfold parseEnv
  rw [List.foldl_append, List.foldl_append, List.foldl_cons, splitN2_no_eq he]

theorem serviceEnv_skip (s : Service) (l1 l2 : List String) (e : String)
    (he : '=' ∉ e.data) : s.Env (l1 ++ e :: l2) = s.Env (l1 ++ l2) := by
  unfold Service.Env
  rw [parseEnv_skip l1 l2 e he]

theorem envMerge_error_shape :
    ∀ (l : List String) (penv full : EMap) (msg : String),
      envMerge penv l full = .error msg →
      ∃ K, msg = "required env: " ++ K ∧ K ∈ l ∧ splitN2 K = [K] ∧
        mapGet penv K = none := by
  intro l
  induction l with
  | nil => intro penv full msg h; simp [envMerge] at h
  | cons e rest ih =>
    intro penv full msg h
    rcases splitN2_shape e with hs | ⟨k, d, hs⟩
    · simp only [envMerge, hs] at h
      cases hv : mapGet penv e with
      | none =>
        simp only [hv] at h
        cases h
        exact ⟨e, rfl, List.mem_cons_self e rest, hs, hv⟩
      | some v =>
        simp only [hv] at h
        obtain ⟨K, hm, hK, hsp, hg⟩ := ih penv _ msg h
        exact ⟨K, hm, List.mem_cons_of_mem e hK, hsp, hg⟩
    · simp only [envMerge, hs] at h
      cases hv : mapGet penv k with
      | none =>
        simp only [hv] at h
        obtain ⟨K, hm, hK, hsp, hg⟩ := ih penv _ msg h
        exact ⟨K, hm, List.mem_cons_of_mem e hK, hsp, hg⟩
      | some v =>
        simp only [hv] at h
        obtain ⟨K, hm, hK, hsp, hg⟩ := ih penv _ msg h
        exact ⟨K, hm, List.mem_cons_of_mem e hK, hsp, hg⟩

theorem envMerge_error_iff :
    ∀ (l : List String) (penv full : EMap),
      (∃ msg, envMerge penv l full = .error msg) ↔
      ∃ K ∈ l, splitN2 K = [K] ∧ mapGet penv K = none := by
  intro l
  induction l with
  | nil =>
    intro penv full
    simp [envMerge]
  | cons e rest ih =>
    intro penv full
    rcases splitN2_shape e with hs | ⟨k, d, hs⟩
    · have he : e = e := rfl
      simp only [envMerge, hs]
      cases hv : mapGet penv e with
      | none =>
        constructor
        · intro _
          exact ⟨e, List.mem_cons_self e rest, hs, hv⟩
        · intro _
          exact ⟨_, rfl⟩
      | some v =>
        rw [ih penv (mapInsert full e v)]
        constructor
        · rintro ⟨K, hK, hsp, hg⟩
          exact ⟨K, List.mem_cons_of_mem e hK, hsp, hg⟩
        · rintro ⟨K, hK, hsp, hg⟩
          cases List.mem_cons.mp hK with
          | inl heq =>
            subst heq
            simp only [hv] at hg
            cases hg
          | inr hmem => exact ⟨K, hmem, hsp, hg⟩
    · simp only [envMerge, hs]
      have hne : ∀ K, splitN2 K = [K] → K ≠ e := by
        intro K hK heq
        subst heq
        rw [hK] at hs
        cases hs
      have step : ∀ m2 : EMap,
          ((∃ msg, envMerge penv rest m2 = .error msg) ↔
            ∃ K ∈ e :: rest, splitN2 K = [K] ∧ mapGet penv K = none) := by
        intro m2
        rw [ih penv m2]
        constructor
        · rintro ⟨K, hK, hsp, hg⟩
          exact ⟨K, List.mem_cons_of_mem e hK, hsp, hg⟩
        · rintro ⟨K, hK, hsp, hg⟩
          cases List.mem_cons.mp hK with
          | inl heq => exact absurd heq (hne K hsp)
          | inr hmem => exact ⟨K, hmem, hsp, hg⟩
      cases hv : mapGet penv k with
      | none => exact step _
      | some v => exact step _

theorem envMerge_ok_frame :
    ∀ (l : List String) (penv full full' : EMap) (K : String),
      envMerge penv l full = .ok full' → (∀ e ∈ l, entryKey e ≠ K) →
      mapGet full' K = mapGet full K := by
  intro l
  induction l with
  | nil =>
    intro penv full full' K h _
    cases h
    rfl
  | cons e rest ih =>
    intro penv full full' K h hk
    have hke : entryKey e ≠ K := hk e (List.mem_cons_self e rest)
    have hkrest : ∀ e2 ∈ rest, entryKey e2 ≠ K :=
      fun e2 h2 => hk e2 (List.mem_cons_of_mem e h2)
    rcases splitN2_shape e with hs | ⟨k, d, hs⟩
    · simp only [envMerge, hs] at h
      have hkey : entryKey e = e := by rw [entryKey, hs]; rfl
      cases hv : mapGet penv e with
      | none => simp only [hv] at h; cases h
      | some v =>
        simp only [hv] at h
        rw [ih penv _ full' K h hkrest,
          mapGet_mapInsert_ne full e K v (fun hKe => hke (hkey.trans hKe.symm))]
    · simp only [envMerge, hs] at h
      have hkey : entryKey e = k := by rw [entryKey, hs]; rfl
      cases hv : mapGet penv k with
      | none =>
        simp only [hv] at h
        rw [ih penv _ full' K h hkrest,
          mapGet_mapInsert_ne full k K d (fun hKe => hke (hkey.trans hKe.symm))]
      | some v =>
        simp only [hv] at h
        rw [ih penv _ full' K h hkrest,
          mapGet_mapInsert_ne full k K v (fun hKe => hke (hkey.trans hKe.symm))]

theorem envMerge_ok_get_ambient :
    ∀ (l : List String) (penv full full' : EMap) (K v : String),
      envMerge penv l full = .ok full' → mapGet penv K = some v →
      (∃ e ∈ l, entryKey e = K) → mapGet full' K = some v := by
  intro l
  induction l with
  | nil =>
    intro penv full full' K v h _ hex
    obtain ⟨e, he, _⟩ := hex
    cases he
  | cons e rest ih =>
    intro penv full full' K v h hv hex
    by_cases hrest : ∃ e2 ∈ rest, entryKey e2 = K
    · rcases splitN2_shape e with hs | ⟨k, d, hs⟩
      · simp only [envMerge, hs] at h
        cases hv2 : mapGet penv e with
        | none => simp only [hv2] at h; cases h
        | some w => simp only [hv2] at h; exact ih penv _ full' K v h hv hrest
      · simp only [envMerge, hs] at h
        cases hv2 : mapGet penv k with
        | none => simp only [hv2] at h; exact ih penv _ full' K v h hv hrest
        | some w => simp only [hv2] at h; exact ih penv _ full' K v h hv hrest
    · have hnone : ∀ e2 ∈ rest, entryKey e2 ≠ K := by
        intro e2 h2 hk
        exact hrest ⟨e2, h2, hk⟩
      obtain ⟨e0, he0, hke0⟩ := hex
      have he0e : e0 = e := by
        cases List.mem_cons.mp he0 with
        | inl heq => exact heq
        | inr hmem => exact absurd hke0 (hnone e0 hmem)
      subst he0e
      rcases splitN2_shape e0 with hs | ⟨k, d, hs⟩
      · have hkey : entryKey e0 = e0 := by rw [entryKey, hs]; rfl
        have hKe : K = e0 := (hkey ▸ hke0).symm
        subst hKe
        simp only [envMerge, hs] at h
        simp only [hv] at h
        rw [envMerge_ok_frame rest penv _ full' K h hnone,
          mapGet_mapInsert_self full K v]
      · have hkey : entryKey e0 = k := by rw [entryKey, hs]; rfl
        have hKe : K = k := (hkey ▸ hke0).symm
        subst hKe
        simp only [envMerge, hs] at h
        simp only [hv] at h
        rw [envMerge_ok_frame rest penv _ full' K h hnone,
          mapGet_mapInsert_self full K v]

theorem envMerge_ok_get_default :
    ∀ (l : List String) (penv full full' : EMap) (e K d : String),
      envMerge penv l full = .ok full' → (l.map entryKey).Nodup →
      e ∈ l → splitN2 e = [K, d] → mapGet penv K = none →
      mapGet full' K = some d := by
  intro l
  induction l with
  | nil =>
    intro penv full full' e K d h _ he
    cases he
  | cons e2 rest ih =>
    intro penv full full' e K d h hnd he hs hv
    have hnd2 : (rest.map entryKey).Nodup := by
      simp only [List.map_cons, List.nodup_cons] at hnd
      exact hnd.2
    have hhead : entryKey e2 ∉ rest.map entryKey := by
      simp only [List.map_cons, List.nodup_cons] at hnd
      exact hnd.1
    cases List.mem_cons.mp he with
    | inl heq =>
      subst heq
      simp only [envMerge, hs] at h
      have hkey : entryKey e = K := by rw [entryKey, hs]; rfl
      simp only [hv] at h
      have hnone : ∀ e3 ∈ rest, entryKey e3 ≠ K := by
        intro e3 h3 hk
        exact hhead (hkey ▸ hk ▸ List.mem_map_of_mem entryKey h3)
      rw [envMerge_ok_frame rest penv _ full' K h hnone,
        mapGet_mapInsert_self full K d]
    | inr hmem =>
      have hkne : entryKey e2 ≠ K := by
        intro hk
        have hKe : entryKey e = K := by rw [entryKey, hs]; rfl
        exact hhead (hk ▸ hKe ▸ List.mem_map_of_mem entryKey hmem)
      rcases splitN2_shape e2 with hs2 | ⟨k2, d2, hs2⟩
      · simp only [envMerge, hs2] at h
        cases hv2 : mapGet penv e2 with
        | none => simp only [hv2] at h; cases h
        | some w => simp only [hv2] at h; exact ih penv _ full' e K d h hnd2 hmem hs hv
      · simp only [envMerge, hs2] at h
        cases hv2 : mapGet penv k2 with
        | none => simp only [hv2] at h; exact ih penv _ full' e K d h hnd2 hmem hs hv
        | some w => simp only [hv2] at h; exact ih penv _ full' e K d h hnd2 hmem hs hv

/-- Claim C3: a declared required key K (entry without an equals sign)
absent from the parsed ambient environment makes resolution fail, and
the failure is always a required-env failure; on success the resolved
value of a declared key present in the ambient environment is the
ambient value, and an optional entry KEY=default resolves to its
default when the ambient environment does not define KEY. -/
theorem service_env_resolution :
    ∀ (s : Service) (env : List String),
      ((∃ msg, s.Env env = .error msg) ↔
        ∃ K ∈ s.Environment, splitN2 K = [K] ∧ mapGet (parseEnv env) K = none) ∧
      (∀ msg, s.Env env = .error msg →
        ∃ K, msg = "required env: " ++ K ∧ K ∈ s.Environment ∧
          mapGet (parseEnv env) K = none) ∧
      (∀ full K v, s.Env env = .ok full → (∃ e ∈ s.Environment, entryKey e = K) →
        mapGet (parseEnv env) K = some v → mapGet full K = some v) ∧
      (∀ full e K d, s.Env env = .ok full → (s.Environment.map entryKey).Nodup →
        e ∈ s.Environment → splitN2 e = [K, d] → mapGet (parseEnv env) K = none →
        mapGet full K = some d) := by
  intro s env
  refine ⟨envMerge_error_iff s.Environment (parseEnv env) [], ?_, ?_, ?_⟩
  · intro msg h
    obtain ⟨K, hm, hK, _, hg⟩ := envMerge_error_shape s.Environment (parseEnv env) [] msg h
    exact ⟨K, hm, hK, hg⟩
  · intro full K v h hex hv
    exact envMerge_ok_get_ambient s.Environment (parseEnv env) [] full K v h hv hex
  · intro full e K d h hnd he hs hv
    exact envMerge_ok_get_default s.Environment (parseEnv env) [] full e K d h hnd he hs hv

/-- Claim C3, witness: for a service declaring required K and optional
L=d, resolution against ambient K=v yields v for K and d for L, and
resolution against an empty ambient environment fails. -/
theorem service_env_resolution_witness :
    mapGet [("K", "v"), ("L", "d")] "K" = some "v" ∧
    mapGet [("K", "v"), ("L", "d")] "L" = some "d" ∧
    (∃ msg, Service.Env { Environment := ["K", "L=d"] } [] = .error msg) := by
  refine ⟨?_, ?_, ?_⟩
  · exact (service_env_resolution { Environment := ["K", "L=d"] } ["K=v"]).2.2.1
      [("K", "v"), ("L", "d")] "K" "v" (by decide) (by decide) (by decide)
  · exact (service_env_resolution { Environment := ["K", "L=d"] } ["K=v"]).2.2.2
      [("K", "v"), ("L", "d")] "L=d" "L" "d" (by decide) (by decide) (by decide)
      (by decide) (by decide)
  · exact (service_env_resolution { Environment := ["K", "L=d"] } []).1.mpr
      ⟨"K", by decide, by decide, by decide⟩

/-- Claim C10: an ambient entry containing no '=' is ignored by
environment resolution — it neither satisfies a required key nor
overrides an optional default — and the invalid-environment branch of
Service.Env is unreachable. -/
theorem env_entries_without_equals_ignored :
    (∀ (e : String) (l1 l2 : List String), '=' ∉ e.data →
      parseEnv (l1 ++ e :: l2) = parseEnv (l1 ++ l2)) ∧
    (∀ (s : Service) (e : String) (l1 l2 : List String), '=' ∉ e.data →
      s.Env (l1 ++ e :: l2) = s.Env (l1 ++ l2)) ∧
    (∀ (s : Service) (env : List String), s.Env env ≠ .error "invalid environment") := by
  refine ⟨fun e l1 l2 => parseEnv_skip l1 l2 e, fun s e l1 l2 => serviceEnv_skip s l1 l2 e, ?_⟩
  intro s env h
  obtain ⟨K, hm, _, _⟩ :=
    envMerge_error_shape s.Environment (parseEnv env) [] "invalid environment" h
  have hhead : ("invalid environment").data.head? = ("required env: " ++ K).data.head? :=
    congrArg (fun s => s.data.head?) hm
  rw [String.data_append] at hhead
  have h1 : ("invalid environment").data.head? = some 'i' := rfl
  have h2 : ("required env: ").data ++ K.data = 'r' :: ("equired env: ".data ++ K.data) := rfl
  rw [h1, h2] at hhead
  simp at hhead

/-- Claim C10, witness: the bare ambient entry K does not satisfy the
required key K, does not override the optional default of L, and no
concrete resolution returns the invalid-environment error. -/
theorem env_entries_without_equals_ignored_witness :
    parseEnv (["K"] ++ "L" :: ["K=v"]) = parseEnv (["K"] ++ ["K=v"]) ∧
    Service.Env { Environment := ["K", "L=d"] } ([] ++ "K" :: []) =
      Service.Env { Environment := ["K", "L=d"] } ([] ++ []) ∧
    Service.Env { Environment := ["K"] } ["K"] ≠ .error "invalid environment" := by
  refine ⟨?_, ?_, ?_⟩
  · exact env_entries_without_equals_ignored.1 "L" ["K"] ["K=v"] (by decide)
  · exact env_entries_without_equals_ignored.2.1 { Environment := ["K", "L=d"] } "K" [] []
      (by decide)
  · exact env_entries_without_equals_ignored.2.2 { Environment := ["K"] } ["K"]

/-- Claim C8, counterexample: BuildHash is not injective — the
argument lists ["a b"] and ["a", "b"] format identically under %v, so
two services with different build arguments share one hash. -/
theorem buildhash_not_injective_counterexample :
    ({ Build := { Path := "p", Args := ["a b"] }, Image := "i" } : Service).Build.Args ≠
      ({ Build := { Path := "p", Args := ["a", "b"] }, Image := "i" } : Service).Build.Args ∧
    Service.BuildHash { Build := { Path := "p", Args := ["a b"] }, Image := "i" } =
      Service.BuildHash { Build := { Path := "p", Args := ["a", "b"] }, Image := "i" } := by
  constructor
  · decide
  · have h : buildIdentity { Build := { Path := "p", Args := ["a b"] }, Image := "i" } =
        buildIdentity { Build := { Path := "p", Args := ["a", "b"] }, Image := "i" } := by
      decide
    exact congrArg (fun t => sha1Hex (strBytes t)) h

/-- Claim C8, amended: BuildHash is deterministic — services agreeing
on build path, build arguments and image hash identically — but it is
not injective: distinct argument lists whose space-joined rendering
coincides collide. -/
theorem buildhash_deterministic_amended :
    ∀ (s t : Service), s.Build.Path = t.Build.Path → s.Build.Args = t.Build.Args →
      s.Image = t.Image → s.BuildHash = t.BuildHash := by
  intro s t h1 h2 h3
  have h : buildIdentity s = buildIdentity t := by
    unfold buildIdentity
    rw [h1, h2, h3]
  exact congrArg (fun x => sha1Hex (strBytes x)) h

/-- Claim C8, witness: two services differing only in name share a
build hash. -/
theorem buildhash_deterministic_witness :
    Service.BuildHash { Name := "a", Build := { Path := "p", Args := ["x"] }, Image := "i" } =
      Service.BuildHash { Name := "b", Build := { Path := "p", Args := ["x"] }, Image := "i" } :=
  buildhash_deterministic_amended _ _ rfl rfl rfl

/-- Claim C6, counterexample: an endpoint with both redirect and
target set is not a synthesis-time error — synthesis succeeds and the
redirect wins. -/
theorem endpoint_both_set_counterexample :
    (balancerContainers { Name := "rk", Version := "v", SystemImage := "si" }
      [{ Name := "web",
         Endpoints :=
           [{ Port := "443", Protocol := "https", Redirect := "https://x",
              Target := "https://y" }] }]
      "ap" "r1" Stage.development).map (fun cs => cs.map (fun c => c.Command)) =
    .ok [["balancer", "https", "redirect", "https://x"]] := by
  decide

theorem mapM_singleton {α β : Type} (f : α → Except String β) (a : α) :
    List.mapM f [a] = match f a with
      | .ok b => .ok [b]
      | .error msg => .error msg := by
  rw [List.mapM_cons]
  cases hfa : f a with
  | ok b =>
    simp only [hfa, exceptOkBind, List.mapM_nil, exceptPureEq]
  | error msg =>
    simp only [hfa, exceptErrorBind]

/-- Claim C6, amended: an endpoint with neither redirect nor target
set is a synthesis-time error; an endpoint with both set is not an
error — the redirect case of the switch takes precedence and the
endpoint synthesizes a redirect container. -/
theorem endpoint_validation_amended :
    ∀ (p : Provider) (app release : String) (stage : Stage) (b : Balancer) (e : Endpoint),
      stage ≠ Stage.test → b.Endpoints = [e] →
      ((e.Redirect = "" → e.Target = "" →
        balancerContainers p [b] app release stage =
          .error ("invalid balancer endpoint: " ++ b.Name ++ ":" ++ e.Port)) ∧
      (e.Redirect ≠ "" →
        balancerContainers p [b] app release stage =
          .ok [balancerContainer p app release b e
            ["balancer", e.Protocol, "redirect", e.Redirect]])) := by
  intro p app release stage b e hst hb
  constructor
  · intro hr ht
    have hcmd : endpointCommand b e =
        .error ("invalid balancer endpoint: " ++ b.Name ++ ":" ++ e.Port) := by
      simp [endpointCommand, hr, ht]
    simp only [balancerContainers, if_neg hst, mapM_singleton, hb, hcmd,
      exceptOkBind, exceptErrorBind, exceptPureEq]
  · intro hr
    have hcmd : endpointCommand b e =
        .ok ["balancer", e.Protocol, "redirect", e.Redirect] := by
      simp [endpointCommand, hr]
    simp only [balancerContainers, if_neg hst, mapM_singleton, hb, hcmd,
      exceptOkBind, exceptErrorBind, exceptPureEq, List.flatten_cons,
      List.flatten_nil, List.append_nil]

/-- Claim C6, witness: concretely, an endpoint with neither redirect
nor target fails synthesis, and a redirect-only endpoint synthesizes a
redirect container. -/
theorem endpoint_validation_witness :
    (balancerContainers { Name := "rk", Version := "v", SystemImage := "si" }
      [{ Name := "web", Endpoints := [{ Port := "443", Protocol := "https" }] }]
      "ap" "r1" Stage.development = .error ("invalid balancer endpoint: " ++ "web" ++ ":" ++ "443")) ∧
    (balancerContainers { Name := "rk", Version := "v", SystemImage := "si" }
      [{ Name := "web",
         Endpoints := [{ Port := "443", Protocol := "https", Redirect := "https://x" }] }]
      "ap" "r1" Stage.development =
      .ok [balancerContainer { Name := "rk", Version := "v", SystemImage := "si" } "ap" "r1"
        { Name := "web",
          Endpoints := [{ Port := "443", Protocol := "https", Redirect := "https://x" }] }
        { Port := "443", Protocol := "https", Redirect := "https://x" }
        ["balancer", "https", "redirect", "https://x"]]) := by
  constructor
  · exact (endpoint_validation_amended { Name := "rk", Version := "v", SystemImage := "si" }
      "ap" "r1" Stage.development
      { Name := "web", Endpoints := [{ Port := "443", Protocol := "https" }] }
      { Port := "443", Protocol := "https" } (by decide) rfl).1 rfl rfl
  · exact (endpoint_validation_amended { Name := "rk", Version := "v", SystemImage := "si" }
      "ap" "r1" Stage.development
      { Name := "web",
        Endpoints := [{ Port := "443", Protocol := "https", Redirect := "https://x" }] }
      { Port := "443", Protocol := "https", Redirect := "https://x" } (by decide) rfl).2
      (by decide)

theorem strAppend_left_cancel {a b c : String} (h : a ++ b = a ++ c) : b = c := by
  apply String.ext
  have hd := congrArg String.data h
  rw [String.data_append, String.data_append] at hd
  exact List.append_cancel_left hd

theorem strAppend_right_cancel {a b c : String} (h : a ++ c = b ++ c) : a = b := by
  apply String.ext
  have hd := congrArg String.data h
  rw [String.data_append, String.data_append] at hd
  exact List.append_cancel_right hd

theorem injectResource1_ok_miss {app sr : String} {e e2 : EMap} {r : Resource} {key : String}
    (h : injectResource1 app sr e r = .ok e2) (hk : key ≠ goToUpper sr ++ "_URL") :
    mapGet e2 key = mapGet e key := by
  by_cases hn : r.Name == sr
  · simp only [injectResource1, if_pos hn] at h
    cases hu : resourceURL app r.Type' r.Name with
    | error msg => simp only [hu, exceptErrorBind] at h; cases h
    | ok u =>
      simp only [hu, exceptOkBind, exceptPureEq, Except.ok.injEq] at h
      rw [← h, mapGet_mapInsert_ne _ _ _ _ hk]
  · simp only [injectResource1, if_neg hn, exceptPureEq, Except.ok.injEq] at h
    rw [← h]

theorem innerFold_ok_miss {app sr key : String} :
    ∀ (resources : List Resource) (e e2 : EMap),
      List.foldlM (injectResource1 app sr) e resources = .ok e2 →
      key ≠ goToUpper sr ++ "_URL" → mapGet e2 key = mapGet e key := by
  intro resources
  induction resources with
  | nil =>
    intro e e2 h _
    rw [List.foldlM_nil, exceptPureEq, Except.ok.injEq] at h
    rw [← h]
  | cons r rest ih =>
    intro e e2 h hk
    rw [List.foldlM_cons] at h
    cases h1 : injectResource1 app sr e r with
    | error msg => rw [h1, exceptErrorBind] at h; cases h
    | ok e1 =>
      rw [h1, exceptOkBind] at h
      rw [ih e1 e2 h hk, injectResource1_ok_miss h1 hk]

theorem innerFold_ok_nomatch {app sr : String} :
    ∀ (resources : List Resource) (e e2 : EMap),
      List.foldlM (injectResource1 app sr) e resources = .ok e2 →
      (∀ r2 ∈ resources, r2.Name ≠ sr) → e2 = e := by
  intro resources
  induction resources with
  | nil =>
    intro e e2 h _
    rw [List.foldlM_nil, exceptPureEq, Except.ok.injEq] at h
    exact h.symm
  | cons r rest ih =>
    intro e e2 h hno
    rw [List.foldlM_cons] at h
    have hn : (r.Name == sr) = false :=
      beq_eq_false_iff_ne.mpr (hno r (List.mem_cons_self r rest))
    rw [injectResource1, if_neg (by simp [hn])] at h
    rw [exceptPureEq, exceptOkBind] at h
    exact ih e e2 h (fun r2 h2 => hno r2 (List.mem_cons_of_mem r h2))

theorem innerFold_ok_hit {app sr : String} :
    ∀ (resources : List Resource) (e e2 : EMap),
      List.foldlM (injectResource1 app sr) e resources = .ok e2 →
      (∀ r2 ∈ resources, r2.Name = sr → r2.Type' = "redis") →
      (∃ r2 ∈ resources, r2.Name = sr) →
      mapGet e2 (goToUpper sr ++ "_URL") =
        some ("redis://" ++ sr ++ ".resource." ++ app ++ ".convox:6379/0") := by
  intro resources
  induction resources with
  | nil =>
    intro e e2 _ _ hex
    obtain ⟨r2, h2, _⟩ := hex
    cases h2
  | cons r rest ih =>
    intro e e2 h hty hex
    rw [List.foldlM_cons] at h
    cases h1 : injectResource1 app sr e r with
    | error msg => rw [h1, exceptErrorBind] at h; cases h
    | ok e1 =>
      rw [h1, exceptOkBind] at h
      by_cases hrest : ∃ r2 ∈ rest, r2.Name = sr
      · exact ih e1 e2 h (fun r2 h2 => hty r2 (List.mem_cons_of_mem r h2)) hrest
      · have hnorest : ∀ r2 ∈ rest, r2.Name ≠ sr := by
          intro r2 h2 hn
          exact hrest ⟨r2, h2, hn⟩
        have hname : r.Name = sr := by
          obtain ⟨r2, h2, hn⟩ := hex
          cases List.mem_cons.mp h2 with
          | inl heq => exact heq ▸ hn
          | inr hmem => exact absurd hn (hnorest r2 hmem)
        have hred : r.Type' = "redis" := hty r (List.mem_cons_self r rest) hname
        have he1 : e1 = mapInsert e (goToUpper sr ++ "_URL")
            ("redis://" ++ sr ++ ".resource." ++ app ++ ".convox:6379/0") := by
          rw [injectResource1, if_pos (by simp [hname]), hred, hname] at h1
          simp only [resourceURL, exceptOkBind, exceptPureEq, Except.ok.injEq] at h1
          exact h1.symm
        rw [innerFold_ok_nomatch rest e1 e2 h hnorest, he1, mapGet_mapInsert_self]

theorem outerFold_ok_miss {app key : String} {resources : List Resource} :
    ∀ (srs : List String) (env e2 : EMap),
      List.foldlM (fun e sr => List.foldlM (injectResource1 app sr) e resources) env srs =
        .ok e2 →
      (∀ sr3 ∈ srs, key ≠ goToUpper sr3 ++ "_URL") → mapGet e2 key = mapGet env key := by
  intro srs
  induction srs with
  | nil =>
    intro env e2 h _
    rw [List.foldlM_nil, exceptPureEq, Except.ok.injEq] at h
    rw [← h]
  | cons sr3 rest ih =>
    intro env e2 h hk
    rw [List.foldlM_cons] at h
    cases h1 : List.foldlM (injectResource1 app sr3) env resources with
    | error msg => rw [h1, exceptErrorBind] at h; cases h
    | ok e1 =>
      rw [h1, exceptOkBind] at h
      rw [ih e1 e2 h (fun s hs => hk s (List.mem_cons_of_mem sr3 hs)),
        innerFold_ok_miss resources env e1 h1 (hk sr3 (List.mem_cons_self sr3 rest))]

theorem outerFold_ok_hit {app sr : String} {resources : List Resource} :
    ∀ (srs : List String) (env e2 : EMap),
      List.foldlM (fun e sr2 => List.foldlM (injectResource1 app sr2) e resources) env srs =
        .ok e2 →
      sr ∈ srs →
      (∀ sr2 ∈ srs, goToUpper sr2 = goToUpper sr → sr2 = sr) →
      (∀ r2 ∈ resources, r2.Name = sr → r2.Type' = "redis") →
      (∃ r2 ∈ resources, r2.Name = sr) →
      mapGet e2 (goToUpper sr ++ "_URL") =
        some ("redis://" ++ sr ++ ".resource." ++ app ++ ".convox:6379/0") := by
  intro srs
  induction srs with
  | nil =>
    intro env e2 _ hmem
    cases hmem
  | cons sr2 rest ih =>
    intro env e2 h hmem huniq hty hex
    rw [List.foldlM_cons] at h
    cases h1 : List.foldlM (injectResource1 app sr2) env resources with
    | error msg => rw [h1, exceptErrorBind] at h; cases h
    | ok e1 =>
      rw [h1, exceptOkBind] at h
      by_cases hrest : sr ∈ rest
      · exact ih e1 e2 h hrest (fun s hs => huniq s (List.mem_cons_of_mem sr2 hs)) hty hex
      · have hsr : sr2 = sr := by
          cases List.mem_cons.mp hmem with
          | inl heq => exact heq.symm
          | inr hm => exact absurd hm hrest
        subst hsr
        have hstep : mapGet e1 (goToUpper sr2 ++ "_URL") =
            some ("redis://" ++ sr2 ++ ".resource." ++ app ++ ".convox:6379/0") :=
          innerFold_ok_hit resources env e1 h1 hty hex
        have hkeep : ∀ sr3 ∈ rest, goToUpper sr2 ++ "_URL" ≠ goToUpper sr3 ++ "_URL" := by
          intro sr3 h3 hkey
          have hup : goToUpper sr3 = goToUpper sr2 := (strAppend_right_cancel hkey).symm
          have : sr3 = sr2 := huniq sr3 (List.mem_cons_of_mem sr2 h3) hup
          exact hrest (this ▸ h3)
        rw [outerFold_ok_miss rest e1 e2 h
          (fun s hs => hkeep s hs), hstep]

/-- Claim C4, counterexample: on a rack named myrack, the DB_URL
injected for a redis resource named db carries the fixed domain
component convox, not the rack name, so it is not the template
instantiated with the rack name. -/
theorem resource_url_rack_counterexample :
    (serviceContainers { Name := "myrack", Version := "v", SystemImage := "si" }
        { Resources := [{ Name := "db", Type' := "redis" }],
          Services := [{ Name := "api", Command := { Production := "run" },
                         Resources := ["db"], Scale := { Count := { Min := 1 } } }] }
        [{ Name := "api", Command := { Production := "run" },
           Resources := ["db"], Scale := { Count := { Min := 1 } } }]
        "app1" "r1" Stage.production [] "b1").map
      (fun cs => cs.map (fun c => mapGet c.Env "DB_URL")) =
      .ok [some "redis://db.resource.app1.convox:6379/0"] ∧
    "redis://db.resource.app1.convox:6379/0" ≠
      specKeyValueURL "redis" "db" "app1" "myrack" 6379 "0" := by
  constructor
  · decide
  · decide

/-- Claim C4, amended: a service consuming a declared redis resource
receives the environment entry UPPER(name)_URL whose value is the
catalog template instantiated with the app and the resource name but
with the fixed domain component convox in place of the rack name; the
URL remains injective in the resource name. -/
theorem resource_url_injection_amended :
    (∀ (app : String) (resources : List Resource) (srs : List String) (env e2 : EMap)
        (sr : String),
      injectResources app resources srs env = .ok e2 →
      sr ∈ srs →
      (∀ sr2 ∈ srs, goToUpper sr2 = goToUpper sr → sr2 = sr) →
      (∀ r2 ∈ resources, r2.Name = sr → r2.Type' = "redis") →
      (∃ r2 ∈ resources, r2.Name = sr) →
      mapGet e2 (goToUpper sr ++ "_URL") =
        some ("redis://" ++ sr ++ ".resource." ++ app ++ ".convox:6379/0")) ∧
    (∀ (app n1 n2 : String), n1 ≠ n2 →
      resourceURL app "redis" n1 ≠ resourceURL app "redis" n2) := by
  constructor
  · intro app resources srs env e2 sr h hmem huniq hty hex
    exact outerFold_ok_hit srs env e2 h hmem huniq hty hex
  · intro app n1 n2 hne h
    have h1 : resourceURL app "redis" n1 =
        .ok ("redis://" ++ n1 ++ ".resource." ++ app ++ ".convox:6379/0") := rfl
    have h2 : resourceURL app "redis" n2 =
        .ok ("redis://" ++ n2 ++ ".resource." ++ app ++ ".convox:6379/0") := rfl
    rw [h1, h2, Except.ok.injEq] at h
    have h3 := strAppend_right_cancel h
    have h4 := strAppend_right_cancel h3
    have h5 := strAppend_right_cancel h4
    exact hne (strAppend_left_cancel h5)

/-- Claim C4, witness: concretely, injecting resource db of type redis
for app app1 yields the entry DB_URL with the convox-domain URL, and
renaming the resource changes the URL. -/
theorem resource_url_injection_witness :
    mapGet [("DB_URL", "redis://db.resource.app1.convox:6379/0")] "DB_URL" =
      some "redis://db.resource.app1.convox:6379/0" ∧
    resourceURL "app1" "redis" "a" ≠ resourceURL "app1" "redis" "b" := by
  constructor
  · exact resource_url_injection_amended.1 "app1" [{ Name := "db", Type' := "redis" }]
      ["db"] [] [("DB_URL", "redis://db.resource.app1.convox:6379/0")] "db"
      (by decide) (by decide) (by decide) (by decide) (by decide)
  · exact resource_url_injection_amended.2 "app1" "a" "b" (by decide)

/-- Claim C2: for every manifest, synthesis at the test stage returns
zero balancer containers and zero service containers (no background
services and no endpoint containers), whatever balancers and services
with public ports the manifest declares. -/
theorem stage_test_yields_no_containers :
    ∀ (p : Provider) (balancers : List Balancer) (m : Manifest) (services : List Service)
      (app release : String) (ambient : List String) (buildId : String),
      balancerContainers p balancers app release Stage.test = .ok [] ∧
      serviceContainers p m services app release Stage.test ambient buildId = .ok [] := by
  intro p balancers m services app release ambient buildId
  exact ⟨by simp [balancerContainers], by simp [serviceContainers]⟩

/-- Claim C7, counterexample: at the test stage, serviceContainers on
a manifest with one service returns an empty list without error, so
synthesis does not fail with a background-service-in-test error. -/
theorem test_stage_service_synthesis_counterexample :
    serviceContainers { Name := "rack1", Version := "v1", SystemImage := "si" }
      { Services := [{ Name := "web", Command := { Production := "run" } }] }
      [{ Name := "web", Command := { Production := "run" } }]
      "app1" "r1" Stage.test [] "b1" = .ok [] := by
  decide

/-- Claim C7, amended: synthesizing service containers at the test
stage returns an empty container list and no error for every manifest;
the background-service-in-test arm of the stage switch is unreachable
because of the early test-stage return. -/
theorem test_stage_service_synthesis_amended :
    ∀ (p : Provider) (m : Manifest) (services : List Service) (app release : String)
      (ambient : List String) (buildId : String),
      serviceContainers p m services app release Stage.test ambient buildId = .ok [] := by
  intro p m services app release ambient buildId
  simp [serviceContainers]

/-- Claim C1: the stop phase of converge stops exactly the running
containers (queried by rack and app labels) whose identifier appears
neither among the identifiers recorded in the desired list nor among
the containers additionally labeled type=process; in particular a
container labeled type=process is never stopped. -/
theorem converge_stops_exactly_nondesired_nonprocess :
    ∀ (p : Provider) (app : String) (cs : List container) (docker : List RunningContainer)
      (rc : String),
      (rc ∈ convergeStops p app cs docker ↔
        rc ∈ containersByLabels [("convox.rack", p.Name), ("convox.app", app)] docker ∧
        (∀ c ∈ cs, c.Id ≠ rc) ∧
        rc ∉ containersByLabels
          [("convox.rack", p.Name), ("convox.app", app), ("convox.type", "process")] docker) ∧
      (rc ∈ containersByLabels
          [("convox.rack", p.Name), ("convox.app", app), ("convox.type", "process")] docker →
        rc ∉ convergeStops p app cs docker) := by
  intro p app cs docker rc
  constructor
  · simp only [convergeStops, List.mem_filter, Bool.not_eq_true', Bool.or_eq_false_iff,
      List.any_eq_false, beq_iff_eq]
    constructor
    · rintro ⟨hmem, h1, h2⟩
      refine ⟨hmem, fun c hc => h1 c hc, fun hps => ?_⟩
      exact h2 rc hps rfl
    · rintro ⟨hmem, h1, h2⟩
      refine ⟨hmem, fun c hc => h1 c hc, fun pc hpc hrc => ?_⟩
      exact h2 (hrc ▸ hpc)
  · intro hps hmem
    simp only [convergeStops, List.mem_filter, Bool.not_eq_true', Bool.or_eq_false_iff,
      List.any_eq_false, beq_iff_eq] at hmem
    exact hmem.2.2 rc hps rfl

/-- Claim C1, witness: on a concrete runtime state, the converge stop
phase stops the stale container i2 and spares the process container
i3. -/
theorem converge_stops_witness :
    ("i2" ∈ convergeStops { Name := "rk", Version := "v", SystemImage := "si" } "ap"
        [{ Id := "i1" }]
        [{ id := "i1", labels := [("convox.rack", "rk"), ("convox.app", "ap")] },
         { id := "i2", labels := [("convox.rack", "rk"), ("convox.app", "ap")] },
         { id := "i3", labels := [("convox.rack", "rk"), ("convox.app", "ap"),
            ("convox.type", "process")] }]) ∧
    ("i3" ∉ convergeStops { Name := "rk", Version := "v", SystemImage := "si" } "ap"
        [{ Id := "i1" }]
        [{ id := "i1", labels := [("convox.rack", "rk"), ("convox.app", "ap")] },
         { id := "i2", labels := [("convox.rack", "rk"), ("convox.app", "ap")] },
         { id := "i3", labels := [("convox.rack", "rk"), ("convox.app", "ap"),
            ("convox.type", "process")] }]) := by
  constructor
  · exact (converge_stops_exactly_nondesired_nonprocess
      { Name := "rk", Version := "v", SystemImage := "si" } "ap" [{ Id := "i1" }]
      [{ id := "i1", labels := [("convox.rack", "rk"), ("convox.app", "ap")] },
       { id := "i2", labels := [("convox.rack", "rk"), ("convox.app", "ap")] },
       { id := "i3", labels := [("convox.rack", "rk"), ("convox.app", "ap"),
          ("convox.type", "process")] }] "i2").1.mpr ⟨by decide, by decide, by decide⟩
  · exact (converge_stops_exactly_nondesired_nonprocess
      { Name := "rk", Version := "v", SystemImage := "si" } "ap" [{ Id := "i1" }]
      [{ id := "i1", labels := [("convox.rack", "rk"), ("convox.app", "ap")] },
       { id := "i2", labels := [("convox.rack", "rk"), ("convox.app", "ap")] },
       { id := "i3", labels := [("convox.rack", "rk"), ("convox.app", "ap"),
          ("convox.type", "process")] }] "i3").2 (by decide)

/-- Claim C9: convergePrune stops exactly the containers carrying this
rack's label that appear in no listed application's labeled container
set; no container belonging to a listed application is stopped. -/
theorem prune_stops_exactly_unowned :
    ∀ (p : Provider) (apps : List String) (docker : List RunningContainer) (c : String),
      (c ∈ convergePruneStops p apps docker ↔
        c ∈ containersByLabels [("convox.rack", p.Name)] docker ∧
        ∀ a ∈ apps,
          c ∉ containersByLabels [("convox.rack", p.Name), ("convox.app", a)] docker) ∧
      (∀ a ∈ apps,
        c ∈ containersByLabels [("convox.rack", p.Name), ("convox.app", a)] docker →
        c ∉ convergePruneStops p apps docker) := by
  intro p apps docker c
  have hiff : c ∈ convergePruneStops p apps docker ↔
      c ∈ containersByLabels [("convox.rack", p.Name)] docker ∧
      ∀ a ∈ apps,
        c ∉ containersByLabels [("convox.rack", p.Name), ("convox.app", a)] docker := by
    simp only [convergePruneStops, List.mem_filter, Bool.not_eq_true',
      List.contains_eq_any_beq, List.any_eq_false, beq_iff_eq, List.mem_flatMap]
    constructor
    · rintro ⟨hmem, hnone⟩
      exact ⟨hmem, fun a ha hc => hnone c ⟨a, ha, hc⟩ rfl⟩
    · rintro ⟨hmem, hnone⟩
      refine ⟨hmem, fun x hx hcx => ?_⟩
      obtain ⟨a, ha, hxa⟩ := hx
      exact hnone a ha (hcx ▸ hxa)
  refine ⟨hiff, fun a ha hc hstop => ?_⟩
  exact (hiff.mp hstop).2 a ha hc

/-- Claim C9, witness: with one listed application, prune stops the
orphaned rack-labeled container i2 and spares the application's
container i1. -/
theorem prune_stops_witness :
    ("i2" ∈ convergePruneStops { Name := "rk", Version := "v", SystemImage := "si" } ["ap"]
        [{ id := "i1", labels := [("convox.rack", "rk"), ("convox.app", "ap")] },
         { id := "i2", labels := [("convox.rack", "rk")] }]) ∧
    ("i1" ∉ convergePruneStops { Name := "rk", Version := "v", SystemImage := "si" } ["ap"]
        [{ id := "i1", labels := [("convox.rack", "rk"), ("convox.app", "ap")] },
         { id := "i2", labels := [("convox.rack", "rk")] }]) := by
  constructor
  · exact (prune_stops_exactly_unowned { Name := "rk", Version := "v", SystemImage := "si" }
      ["ap"] [{ id := "i1", labels := [("convox.rack", "rk"), ("convox.app", "ap")] },
        { id := "i2", labels := [("convox.rack", "rk")] }] "i2").1.mpr
      ⟨by decide, by decide⟩
  · exact (prune_stops_exactly_unowned { Name := "rk", Version := "v", SystemImage := "si" }
      ["ap"] [{ id := "i1", labels := [("convox.rack", "rk"), ("convox.app", "ap")] },
        { id := "i2", labels := [("convox.rack", "rk")] }] "i1").2 "ap" (by decide)
      (by decide)

theorem firstSep {sep : Char} :
    ∀ (u1 : List Char) {v1 u2 v2 : List Char},
      u1 ++ sep :: v1 = u2 ++ sep :: v2 → sep ∉ u1 → sep ∉ u2 → u1 = u2 ∧ v1 = v2 := by
  intro u1
  induction u1 with
  | nil =>
    intro v1 u2 v2 h h1 h2
    cases u2 with
    | nil =>
      simp only [List.nil_append] at h
      injection h with _ h3
      exact ⟨rfl, h3⟩
    | cons c u2 =>
      simp only [List.nil_append, List.cons_append] at h
      injection h with hc _
      exact absurd (hc ▸ List.mem_cons_self c u2) h2
  | cons c u1 ih =>
    intro v1 u2 v2 h h1 h2
    cases u2 with
    | nil =>
      simp only [List.cons_append, List.nil_append] at h
      injection h with hc _
      exact absurd (hc ▸ List.mem_cons_self c u1) h1
    | cons c2 u2 =>
      simp only [List.cons_append] at h
      injection h with hc h3
      have h4 := ih h3 (fun hm => h1 (List.mem_cons_of_mem c hm))
        (fun hm => h2 (List.mem_cons_of_mem c2 hm))
      exact ⟨by rw [hc, h4.1], h4.2⟩

theorem lastSep {sep : Char} {x1 y1 x2 y2 : List Char}
    (h : x1 ++ sep :: y1 = x2 ++ sep :: y2) (h1 : sep ∉ y1) (h2 : sep ∉ y2) :
    x1 = x2 ∧ y1 = y2 := by
  have hr := congrArg List.reverse h
  rw [List.reverse_append, List.reverse_cons, List.reverse_append, List.reverse_cons,
    List.append_assoc, List.append_assoc, List.singleton_append, List.singleton_append] at hr
  have h3 := firstSep y1.reverse hr (by simpa using h1) (by simpa using h2)
  exact ⟨List.reverse_injective h3.2, List.reverse_injective h3.1⟩

theorem nameChars_inj {rack app : String} {k1 t1 k2 t2 : List Char}
    (h : nameChars rack app k1 t1 = nameChars rack app k2 t2)
    (h1 : '.' ∉ k1) (h2 : '.' ∉ k2) : k1 = k2 ∧ t1 = t2 := by
  unfold nameChars at h
  have h3 := List.append_cancel_left h
  injection h3 with _ h4
  have h5 := List.append_cancel_left h4
  injection h5 with _ h6
  exact firstSep k1 h6 h1 h2

theorem name4_data (rack app kind cname : String) :
    (rack ++ "." ++ app ++ "." ++ kind ++ "." ++ cname).data =
      nameChars rack app kind.data cname.data := by
  have hd : (".").data = ['.'] := rfl
  simp [nameChars, String.data_append, hd]

theorem name5_data (rack app kind cname idx : String) :
    (rack ++ "." ++ app ++ "." ++ kind ++ "." ++ cname ++ "." ++ idx).data =
      nameChars rack app kind.data (cname.data ++ '.' :: idx.data) := by
  have hd : (".").data = ['.'] := rfl
  simp [nameChars, String.data_append, hd]

theorem digitsVal_append_digit (l : List Char) (c : Char) :
    digitsVal (l ++ [c]) = digitsVal l * 10 + (c.toNat - 48) := by
  unfold digitsVal
  rw [List.foldl_append]
  rfl

theorem digitChar_toNat {n : Nat} (h : n < 10) : (digitChar n).toNat = 48 + n := by
  interval_cases n <;> rfl

theorem digitsVal_decimalCore : ∀ n, digitsVal (decimalCore n) = n := by
  intro n
  induction n using Nat.strong_induction_on with
  | _ n ih =>
    rw [decimalCore_eq]
    by_cases h10 : n < 10
    · rw [if_pos h10]
      show digitsVal [digitChar n] = n
      unfold digitsVal
      simp [digitChar_toNat h10]
    · rw [if_neg h10, digitsVal_append_digit,
        ih (n / 10) (Nat.div_lt_self (by omega) (by omega)),
        digitChar_toNat (Nat.mod_lt n (by omega))]
      omega

theorem decimal_inj {i j : Nat} (h : decimal i = decimal j) : i = j := by
  have hd : decimalCore i = decimalCore j := congrArg String.data h
  have h2 := congrArg digitsVal hd
  rwa [digitsVal_decimalCore, digitsVal_decimalCore] at h2

theorem digitChar_ne_dot {n : Nat} (h : n < 10) : digitChar n ≠ '.' := by
  intro hc
  have h2 := congrArg Char.toNat hc
  rw [digitChar_toNat h] at h2
  have h3 : ('.').toNat = 46 := rfl
  omega

theorem dot_not_mem_decimalCore : ∀ n, '.' ∉ decimalCore n := by
  intro n
  induction n using Nat.strong_induction_on with
  | _ n ih =>
    rw [decimalCore_eq]
    by_cases h10 : n < 10
    · rw [if_pos h10]
      intro hmem
      rcases List.mem_singleton.mp hmem with h
      exact digitChar_ne_dot h10 h.symm
    · rw [if_neg h10]
      intro hmem
      rcases List.mem_append.mp hmem with h1 | h2
      · exact ih (n / 10) (Nat.div_lt_self (by omega) (by omega)) h1
      · rcases List.mem_singleton.mp h2 with h
        exact digitChar_ne_dot (Nat.mod_lt n (by omega)) h.symm

theorem bName_data (rack app x : String) :
    (bName rack app x).data = nameChars rack app ("balancer").data x.data :=
  name4_data rack app "balancer" x

theorem rName_data (rack app x : String) :
    (rName rack app x).data = nameChars rack app ("resource").data x.data :=
  name4_data rack app "resource" x

theorem eName_data (rack app x : String) :
    (eName rack app x).data = nameChars rack app ("endpoint").data x.data :=
  name4_data rack app "endpoint" x

theorem sName_data (rack app x : String) (i : Nat) :
    (sName rack app x i).data =
      nameChars rack app ("service").data (x.data ++ '.' :: decimalCore i) :=
  name5_data rack app "service" x (decimal i)

theorem bName_inj {rack app x1 x2 : String} (h : bName rack app x1 = bName rack app x2) :
    x1 = x2 := by
  have hd := congrArg String.data h
  rw [bName_data, bName_data] at hd
  exact String.ext (nameChars_inj hd (by decide) (by decide)).2

theorem rName_inj {rack app x1 x2 : String} (h : rName rack app x1 = rName rack app x2) :
    x1 = x2 := by
  have hd := congrArg String.data h
  rw [rName_data, rName_data] at hd
  exact String.ext (nameChars_inj hd (by decide) (by decide)).2

theorem eName_inj {rack app x1 x2 : String} (h : eName rack app x1 = eName rack app x2) :
    x1 = x2 := by
  have hd := congrArg String.data h
  rw [eName_data, eName_data] at hd
  exact String.ext (nameChars_inj hd (by decide) (by decide)).2

theorem sName_inj {rack app x1 x2 : String} {i j : Nat}
    (h : sName rack app x1 i = sName rack app x2 j) : x1 = x2 ∧ i = j := by
  have hd := congrArg String.data h
  rw [sName_data, sName_data] at hd
  have h2 := (nameChars_inj hd (by decide) (by decide)).2
  have h3 := lastSep h2 (dot_not_mem_decimalCore i) (dot_not_mem_decimalCore j)
  exact ⟨String.ext h3.1, decimal_inj (String.ext h3.2)⟩

theorem bName_ne_rName {rack app x1 x2 : String} : bName rack app x1 ≠ rName rack app x2 := by
  intro h
  have hd := congrArg String.data h
  rw [bName_data, rName_data] at hd
  have h2 := (nameChars_inj hd (by decide) (by decide)).1
  exact absurd h2 (by decide)

theorem bName_ne_eName {rack app x1 x2 : String} : bName rack app x1 ≠ eName rack app x2 := by
  intro h
  have hd := congrArg String.data h
  rw [bName_data, eName_data] at hd
  exact absurd (nameChars_inj hd (by decide) (by decide)).1 (by decide)

theorem bName_ne_sName {rack app x1 x2 : String} {j : Nat} :
    bName rack app x1 ≠ sName rack app x2 j := by
  intro h
  have hd := congrArg String.data h
  rw [bName_data, sName_data] at hd
  exact absurd (nameChars_inj hd (by decide) (by decide)).1 (by decide)

theorem rName_ne_eName {rack app x1 x2 : String} : rName rack app x1 ≠ eName rack app x2 := by
  intro h
  have hd := congrArg String.data h
  rw [rName_data, eName_data] at hd
  exact absurd (nameChars_inj hd (by decide) (by decide)).1 (by decide)

theorem rName_ne_sName {rack app x1 x2 : String} {j : Nat} :
    rName rack app x1 ≠ sName rack app x2 j := by
  intro h
  have hd := congrArg String.data h
  rw [rName_data, sName_data] at hd
  exact absurd (nameChars_inj hd (by decide) (by decide)).1 (by decide)

theorem eName_ne_sName {rack app x1 x2 : String} {j : Nat} :
    eName rack app x1 ≠ sName rack app x2 j := by
  intro h
  have hd := congrArg String.data h
  rw [eName_data, sName_data] at hd
  exact absurd (nameChars_inj hd (by decide) (by decide)).1 (by decide)

theorem exceptBind_ok {α β : Type} {x : Except String α} {f : α → Except String β} {b : β}
    (h : (x >>= f) = .ok b) : ∃ a, x = .ok a ∧ f a = .ok b := by
  cases x with
  | error msg => rw [exceptErrorBind] at h; cases h
  | ok a => rw [exceptOkBind] at h; exact ⟨a, rfl, h⟩

theorem balancerContainers_ok_forall {p : Provider} {balancers : List Balancer}
    {app release : String} {stage : Stage} {cs : List container} {P : container → Prop}
    (hP : ∀ b e cmd, P (balancerContainer p app release b e cmd))
    (h : balancerContainers p balancers app release stage = .ok cs) :
    ∀ c ∈ cs, P c := by
  by_cases hst : stage = Stage.test
  · rw [balancerContainers, if_pos hst] at h
    cases h
    intro c hc
    cases hc
  · rw [balancerContainers, if_neg hst] at h
    obtain ⟨css, hm, h2⟩ := exceptBind_ok h
    rw [exceptPureEq] at h2
    cases h2
    intro c hc
    obtain ⟨ys, hys, hcys⟩ := List.mem_flatten.mp hc
    have houter : ∀ ys2 ∈ css, ∀ c2 ∈ ys2, P c2 := by
      refine mapM_ok_forall ?_ hm
      intro b ys2 hys2
      refine mapM_ok_forall ?_ hys2
      intro e c2 hc2
      obtain ⟨cmd, hcmd, hc3⟩ := exceptBind_ok hc2
      rw [exceptPureEq] at hc3
      cases hc3
      exact hP b e cmd
    exact houter ys hys c hcys

theorem resourceContainers_ok_forall {p : Provider} {resources : List Resource}
    {app release : String} {cs : List container} {P : container → Prop}
    (hP : ∀ r rp vs, P (resourceContainer p app release r rp vs))
    (h : resourceContainers p resources app release = .ok cs) :
    ∀ c ∈ cs, P c := by
  unfold resourceContainers at h
  refine mapM_ok_forall ?_ h
  intro r c hc
  obtain ⟨rp, hrp, h2⟩ := exceptBind_ok hc
  obtain ⟨vs, hvs, h3⟩ := exceptBind_ok h2
  rw [exceptPureEq] at h3
  cases h3
  exact hP r rp vs

theorem serviceContainers_ok_forall {p : Provider} {m : Manifest} {services : List Service}
    {app release : String} {stage : Stage} {ambient : List String} {buildId : String}
    {cs : List container} {P : container → Prop}
    (hP1 : ∀ s, P (endpointContainer p app release s))
    (hP2 : ∀ s cmd e i, P (serviceReplica p app release buildId s cmd e i))
    (h : serviceContainers p m services app release stage ambient buildId = .ok cs) :
    ∀ c ∈ cs, P c := by
  by_cases hst : stage = Stage.test
  · rw [serviceContainers, if_pos hst] at h
    cases h
    intro c hc
    cases hc
  · rw [serviceContainers, if_neg hst] at h
    obtain ⟨css, hm, h2⟩ := exceptBind_ok h
    rw [exceptPureEq] at h2
    cases h2
    intro c hc
    obtain ⟨ys, hys, hcys⟩ := List.mem_flatten.mp hc
    have houter : ∀ ys2 ∈ css, ∀ c2 ∈ ys2, P c2 := by
      refine mapM_ok_forall ?_ hm
      intro s ys2 hys2
      obtain ⟨command, hcommand, h3⟩ := exceptBind_ok hys2
      obtain ⟨env, henv, h4⟩ := exceptBind_ok h3
      obtain ⟨e, he, h5⟩ := exceptBind_ok h4
      rw [exceptPureEq] at h5
      cases h5
      intro c2 hc2
      rcases List.mem_append.mp hc2 with h6 | h6
      · by_cases hport : 0 < s.Port.Port
        · rw [if_pos hport] at h6
          rcases List.mem_singleton.mp h6 with h7
          rw [h7]
          exact hP1 s
        · rw [if_neg hport] at h6
          cases h6
      · obtain ⟨i, _, hi⟩ := List.mem_map.mp h6
        rw [← hi]
        exact hP2 s _ e (i + 1)
    exact houter ys hys c hcys

theorem balancerContainers_ok_names {p : Provider} {balancers : List Balancer}
    {app release : String} {stage : Stage} {cs : List container}
    (h : balancerContainers p balancers app release stage = .ok cs)
    (hst : stage ≠ Stage.test) :
    cs.map (fun c => c.Name) = (balancers.map (balNames p.Name app)).flatten := by
  rw [balancerContainers, if_neg hst] at h
  obtain ⟨css, hm, h2⟩ := exceptBind_ok h
  rw [exceptPureEq] at h2
  cases h2
  rw [List.map_flatten]
  congr 1
  refine mapM_ok_map ?_ hm
  intro b ys hys
  show ys.map (fun c => c.Name) = balNames p.Name app b
  refine mapM_ok_map ?_ hys
  intro e c hc
  obtain ⟨cmd, hcmd, hc2⟩ := exceptBind_ok hc
  rw [exceptPureEq] at hc2
  cases hc2
  rfl

theorem resourceContainers_ok_names {p : Provider} {resources : List Resource}
    {app release : String} {cs : List container}
    (h : resourceContainers p resources app release = .ok cs) :
    cs.map (fun c => c.Name) = resources.map (fun r => rName p.Name app r.Name) := by
  unfold resourceContainers at h
  refine mapM_ok_map ?_ h
  intro r c hc
  obtain ⟨rp, hrp, h2⟩ := exceptBind_ok hc
  obtain ⟨vs, hvs, h3⟩ := exceptBind_ok h2
  rw [exceptPureEq] at h3
  cases h3
  rfl

theorem serviceContainers_ok_names {p : Provider} {m : Manifest} {services : List Service}
    {app release : String} {stage : Stage} {ambient : List String} {buildId : String}
    {cs : List container}
    (h : serviceContainers p m services app release stage ambient buildId = .ok cs)
    (hst : stage ≠ Stage.test) :
    cs.map (fun c => c.Name) = (services.map (svcNames p.Name app)).flatten := by
  rw [serviceContainers, if_neg hst] at h
  obtain ⟨css, hm, h2⟩ := exceptBind_ok h
  rw [exceptPureEq] at h2
  cases h2
  rw [List.map_flatten]
  congr 1
  refine mapM_ok_map ?_ hm
  intro s ys hys
  obtain ⟨command, hcommand, h3⟩ := exceptBind_ok hys
  obtain ⟨env, henv, h4⟩ := exceptBind_ok h3
  obtain ⟨e, he, h5⟩ := exceptBind_ok h4
  rw [exceptPureEq] at h5
  cases h5
  rw [List.map_append, svcNames, List.map_map]
  by_cases hport : 0 < s.Port.Port
  · rw [if_pos hport, if_pos hport]
    rfl
  · rw [if_neg hport, if_neg hport]
    rfl

theorem desiredContainers_ok_names {p : Provider} {m : Manifest} {app : String}
    {r : Release} {ambient : List String} {cs : List container}
    (h : desiredContainers p m app r ambient = .ok cs) (hst : r.Stage ≠ Stage.test) :
    cs.map (fun c => c.Name) =
      (m.Balancers.map (balNames p.Name app)).flatten ++
      m.Resources.map (fun rr => rName p.Name app rr.Name) ++
      (m.Services.map (svcNames p.Name app)).flatten := by
  unfold desiredContainers at h
  obtain ⟨bcs, hb, h2⟩ := exceptBind_ok h
  obtain ⟨rcs, hr, h3⟩ := exceptBind_ok h2
  obtain ⟨scs, hs, h4⟩ := exceptBind_ok h3
  rw [exceptPureEq] at h4
  cases h4
  rw [List.map_append, List.map_append, balancerContainers_ok_names hb hst,
    resourceContainers_ok_names hr, serviceContainers_ok_names hs hst]

theorem desiredContainers_ok_names_test {p : Provider} {m : Manifest} {app : String}
    {r : Release} {ambient : List String} {cs : List container}
    (h : desiredContainers p m app r ambient = .ok cs) (hst : r.Stage = Stage.test) :
    cs.map (fun c => c.Name) = m.Resources.map (fun rr => rName p.Name app rr.Name) := by
  unfold desiredContainers at h
  obtain ⟨bcs, hb, h2⟩ := exceptBind_ok h
  obtain ⟨rcs, hr, h3⟩ := exceptBind_ok h2
  obtain ⟨scs, hs, h4⟩ := exceptBind_ok h3
  rw [exceptPureEq] at h4
  cases h4
  rw [hst, balancerContainers, if_pos rfl] at hb
  rw [hst, serviceContainers, if_pos rfl] at hs
  cases hb
  cases hs
  rw [List.nil_append, List.append_nil, resourceContainers_ok_names hr]

theorem nodup_len_le_one {α : Type} {l : List α} (h : l.length ≤ 1) : l.Nodup := by
  match l with
  | [] => exact List.nodup_nil
  | [a] => exact List.nodup_singleton a
  | a :: b :: t => simp at h

theorem mem_balNames {rack app : String} {x : String} {b : Balancer}
    (hx : x ∈ balNames rack app b) : x = bName rack app b.Name := by
  obtain ⟨e, _, he⟩ := List.mem_map.mp hx
  exact he.symm

theorem mem_svcNames {rack app : String} {x : String} {s : Service}
    (hx : x ∈ svcNames rack app s) :
    x = eName rack app s.Name ∨ ∃ i, x = sName rack app s.Name (i + 1) := by
  rcases List.mem_append.mp hx with h1 | h2
  · left
    by_cases hp : 0 < s.Port.Port
    · rw [if_pos hp] at h1
      exact List.mem_singleton.mp h1
    · rw [if_neg hp] at h1
      cases h1
  · right
    obtain ⟨i, _, hi⟩ := List.mem_map.mp h2
    exact ⟨i, hi.symm⟩

theorem balNames_flatten_nodup (rack app : String) {bs : List Balancer}
    (h1 : ∀ b ∈ bs, b.Endpoints.length ≤ 1) (h2 : (bs.map Balancer.Name).Nodup) :
    ((bs.map (balNames rack app)).flatten).Nodup := by
  rw [List.nodup_flatten]
  constructor
  · intro l hl
    obtain ⟨b, hb, hbl⟩ := List.mem_map.mp hl
    rw [← hbl]
    apply nodup_len_le_one
    rw [balNames, List.length_map]
    exact h1 b hb
  · rw [List.pairwise_map]
    have h3 : bs.Pairwise (fun a b => a.Name ≠ b.Name) := List.pairwise_map.mp h2
    refine h3.imp ?_
    intro a b hne x hxa hxb
    exact hne (bName_inj ((mem_balNames hxa).symm.trans (mem_balNames hxb)))

theorem rNames_nodup (rack app : String) {rs : List Resource}
    (h : (rs.map Resource.Name).Nodup) :
    (rs.map (fun r => rName rack app r.Name)).Nodup := by
  have h2 : rs.map (fun r => rName rack app r.Name) =
      (rs.map Resource.Name).map (fun x => rName rack app x) := by
    rw [List.map_map]
    rfl
  rw [h2]
  exact List.Nodup.map (fun x y hxy => rName_inj hxy) h

theorem svcNames_nodup (rack app : String) (s : Service) : (svcNames rack app s).Nodup := by
  rw [svcNames, List.nodup_append]
  refine ⟨?_, ?_, ?_⟩
  · apply nodup_len_le_one
    by_cases hp : 0 < s.Port.Port
    · rw [if_pos hp]
      rfl
    · rw [if_neg hp]
      simp
  · refine List.Nodup.map ?_ (List.nodup_range _)
    intro i j hij
    have h2 := sName_inj hij
    omega
  · intro x hx1 hx2
    by_cases hp : 0 < s.Port.Port
    · rw [if_pos hp] at hx1
      obtain ⟨i, _, hi⟩ := List.mem_map.mp hx2
      exact eName_ne_sName ((List.mem_singleton.mp hx1).symm.trans hi.symm)
    · rw [if_neg hp] at hx1
      cases hx1

theorem svcNames_flatten_nodup (rack app : String) {ss : List Service}
    (h : (ss.map Service.Name).Nodup) :
    ((ss.map (svcNames rack app)).flatten).Nodup := by
  rw [List.nodup_flatten]
  constructor
  · intro l hl
    obtain ⟨s, _, hsl⟩ := List.mem_map.mp hl
    rw [← hsl]
    exact svcNames_nodup rack app s
  · rw [List.pairwise_map]
    have h3 : ss.Pairwise (fun a b => a.Name ≠ b.Name) := List.pairwise_map.mp h
    refine h3.imp ?_
    intro a b hne x hxa hxb
    rcases mem_svcNames hxa with h1 | ⟨i, h1⟩ <;> rcases mem_svcNames hxb with h2 | ⟨j, h2⟩
    · exact hne (eName_inj (h1.symm.trans h2))
    · exact eName_ne_sName (h1.symm.trans h2)
    · exact eName_ne_sName (h2.symm.trans h1)
    · exact hne (sName_inj (h1.symm.trans h2)).1

theorem mem_balNames_flatten {rack app : String} {x : String} {bs : List Balancer}
    (hx : x ∈ (bs.map (balNames rack app)).flatten) :
    ∃ b ∈ bs, x = bName rack app b.Name := by
  obtain ⟨l, hl, hxl⟩ := List.mem_flatten.mp hx
  obtain ⟨b, hb, hbl⟩ := List.mem_map.mp hl
  exact ⟨b, hb, mem_balNames (hbl ▸ hxl)⟩

theorem mem_svcNames_flatten {rack app : String} {x : String} {ss : List Service}
    (hx : x ∈ (ss.map (svcNames rack app)).flatten) :
    ∃ s ∈ ss, x = eName rack app s.Name ∨ ∃ i, x = sName rack app s.Name (i + 1) := by
  obtain ⟨l, hl, hxl⟩ := List.mem_flatten.mp hx
  obtain ⟨s, hs, hsl⟩ := List.mem_map.mp hl
  exact ⟨s, hs, mem_svcNames (hsl ▸ hxl)⟩

/-- Claim C5, counterexample: a balancer with two endpoints yields two
containers with the same name — the balancer container name does not
include the endpoint port — so desired-list names are not pairwise
distinct and there is no distinctly named container per endpoint. -/
theorem duplicate_balancer_names_counterexample :
    (desiredContainers { Name := "rk", Version := "v", SystemImage := "si" }
        { Balancers :=
            [{ Name := "web",
               Endpoints := [{ Port := "80", Protocol := "http", Redirect := "r" },
                             { Port := "443", Protocol := "https", Redirect := "r2" }] }] }
        "ap" { Id := "r1", Build := "b1", Stage := Stage.development } []).map
      (fun cs => cs.map (fun c => c.Name)) =
      .ok ["rk.ap.balancer.web", "rk.ap.balancer.web"] ∧
    ¬ (["rk.ap.balancer.web", "rk.ap.balancer.web"] : List String).Nodup := by
  constructor
  · decide
  · decide

/-- Claim C5, amended: every synthesized container's name is the
deterministic function rack.app.kind.name(.index) of the rack, app,
component kind, component name and optional replica index carried in
its labels; and the names in a desired list are pairwise distinct
provided each balancer has at most one endpoint (multi-endpoint
balancers repeat one name) and balancer, resource and service names
are each duplicate-free. -/
theorem container_names_amended :
    ∀ (p : Provider) (m : Manifest) (app : String) (r : Release) (ambient : List String)
      (cs : List container),
      desiredContainers p m app r ambient = .ok cs →
      (∀ c ∈ cs, c.Name = containerName p.Name app (labelGet c "convox.type")
        (labelGet c "convox.name") (mapGet c.Labels "convox.index")) ∧
      ((∀ b ∈ m.Balancers, b.Endpoints.length ≤ 1) →
        (m.Balancers.map Balancer.Name).Nodup →
        (m.Resources.map Resource.Name).Nodup →
        (m.Services.map Service.Name).Nodup →
        (cs.map (fun c => c.Name)).Nodup) := by
  intro p m app r ambient cs hok
  constructor
  · have hok2 := hok
    unfold desiredContainers at hok2
    obtain ⟨bcs, hb, h2⟩ := exceptBind_ok hok2
    obtain ⟨rcs, hr, h3⟩ := exceptBind_ok h2
    obtain ⟨scs, hs, h4⟩ := exceptBind_ok h3
    rw [exceptPureEq] at h4
    cases h4
    have hball : ∀ c2 ∈ bcs, c2.Name = containerName p.Name app (labelGet c2 "convox.type")
        (labelGet c2 "convox.name") (mapGet c2.Labels "convox.index") := by
      refine balancerContainers_ok_forall ?_ hb
      intro b e cmd
      rfl
    have hres : ∀ c2 ∈ rcs, c2.Name = containerName p.Name app (labelGet c2 "convox.type")
        (labelGet c2 "convox.name") (mapGet c2.Labels "convox.index") := by
      refine resourceContainers_ok_forall ?_ hr
      intro rr rp vs
      rfl
    have hsvc : ∀ c2 ∈ scs, c2.Name = containerName p.Name app (labelGet c2 "convox.type")
        (labelGet c2 "convox.name") (mapGet c2.Labels "convox.index") := by
      refine serviceContainers_ok_forall ?_ ?_ hs
      · intro s
        rfl
      · intro s cmd e i
        rfl
    intro c hc
    rcases List.mem_append.mp hc with hc1 | hc2
    · rcases List.mem_append.mp hc1 with hc3 | hc4
      · exact hball c hc3
      · exact hres c hc4
    · exact hsvc c hc2
  · intro hb1 hbn hrn hsn
    by_cases hst : r.Stage = Stage.test
    · rw [desiredContainers_ok_names_test hok hst]
      exact rNames_nodup p.Name app hrn
    · rw [desiredContainers_ok_names hok hst]
      have hB := balNames_flatten_nodup p.Name app hb1 hbn
      have hR := rNames_nodup p.Name app hrn
      have hS := svcNames_flatten_nodup p.Name app hsn
      have hBR : ((m.Balancers.map (balNames p.Name app)).flatten).Disjoint
          (m.Resources.map (fun rr => rName p.Name app rr.Name)) := by
        intro x hxB hxR
        obtain ⟨b, _, hxb⟩ := mem_balNames_flatten hxB
        obtain ⟨rr, _, hxr⟩ := List.mem_map.mp hxR
        exact bName_ne_rName (hxb.symm.trans hxr.symm)
      have hBS : ((m.Balancers.map (balNames p.Name app)).flatten).Disjoint
          ((m.Services.map (svcNames p.Name app)).flatten) := by
        intro x hxB hxS
        obtain ⟨b, _, hxb⟩ := mem_balNames_flatten hxB
        obtain ⟨s, _, hxs⟩ := mem_svcNames_flatten hxS
        rcases hxs with h1 | ⟨i, h1⟩
        · exact bName_ne_eName (hxb.symm.trans h1)
        · exact bName_ne_sName (hxb.symm.trans h1)
      have hRS : (m.Resources.map (fun rr => rName p.Name app rr.Name)).Disjoint
          ((m.Services.map (svcNames p.Name app)).flatten) := by
        intro x hxR hxS
        obtain ⟨rr, _, hxr⟩ := List.mem_map.mp hxR
        obtain ⟨s, _, hxs⟩ := mem_svcNames_flatten hxS
        rcases hxs with h1 | ⟨i, h1⟩
        · exact rName_ne_eName (hxr.trans h1)
        · exact rName_ne_sName (hxr.trans h1)
      rw [List.nodup_append, List.nodup_append]
      refine ⟨⟨hB, hR, hBR⟩, hS, ?_⟩
      intro x hxBR hxS
      rcases List.mem_append.mp hxBR with h1 | h1
      · exact hBS h1 hxS
      · exact hRS h1 hxS

/-- Claim C5, witness: concretely, a synthesized resource container's
name is the deterministic rack.app.kind.name form, and a two-resource
desired list has pairwise distinct names. -/
theorem container_names_amended_witness :
    ((resourceContainer { Name := "rk", Version := "v", SystemImage := "si" } "ap" "r1"
        { Name := "db", Type' := "redis" } 6379 []).Name =
      containerName "rk" "ap" "resource" "db" none) ∧
    ((["rk.ap.resource.db", "rk.ap.resource.pg"] : List String)).Nodup := by
  have h := container_names_amended { Name := "rk", Version := "v", SystemImage := "si" }
    { Resources := [{ Name := "db", Type' := "redis" }, { Name := "pg", Type' := "postgres" }] }
    "ap" { Id := "r1", Build := "b1", Stage := Stage.production } []
    [resourceContainer { Name := "rk", Version := "v", SystemImage := "si" } "ap" "r1"
       { Name := "db", Type' := "redis" } 6379 [],
     resourceContainer { Name := "rk", Version := "v", SystemImage := "si" } "ap" "r1"
       { Name := "pg", Type' := "postgres" } 5432
       ["/var/convox/ap/resource/pg:/var/lib/postgresql/data"]]
    (by decide)
  constructor
  · exact h.1 _ (by decide)
  · exact h.2 (by decide) (by decide) (by decide) (by decide)
